import Mathlib

/-!
# Shallow embedding of the BNL archive container core

This file embeds the BNL container library (`src/bnl.rs`, `src/lib.rs`,
`src/asset/aidlist/mod.rs`) into Lean 4 and proves the specified
properties about it.

Modelling conventions:

* Rust byte buffers (`&[u8]`, `Vec<u8>`) are `List Nat`; a well-formed
  buffer has all entries `< 256`.
* Machine integers are `Nat` with an explicit `% 2 ^ 32` (resp.
  `% 2 ^ 16`, `% 256`) wherever the Rust code performs an `as u32`
  (resp. `as u16`, `u8` write) conversion.
* Fallible Rust code returns `Except`; code that can additionally panic
  (slice-indexing with unchecked bounds) returns `PRes`, which has an
  explicit `panicked` outcome.
* The DEFLATE/INFLATE pair used by `BNLFile::from_bytes` / `to_bytes`
  is an external primitive (miniz_oxide); it is passed in as a function
  parameter rather than being embedded.
* The module `src/asset/mod.rs` (defining `AssetDescription`,
  `DataViewList`'s codec, the `AssetLike` / `AssetDescriptor` traits and
  `Asset<T>`) is not among the provided sources; definitions taken from
  its documented contract are marked `Modelled from the spec:` in their
  doc comments.
-/

/-- Result of running a piece of Rust code that can succeed, return a
typed error, or panic (e.g. via an out-of-bounds slice index). -/
inductive PRes (ε : Type) (α : Type) where
  | ok (a : α)
  | err (e : ε)
  | panicked
deriving Repr, DecidableEq

/-- All entries of a buffer are byte-sized. -/
def ByteList (l : List Nat) : Prop := ∀ b ∈ l, b < 256

instance : DecidablePred ByteList := fun l =>
  inferInstanceAs (Decidable (∀ b ∈ l, b < 256))

/-- Little-endian serialisation of `n` into `w` bytes (the value is
implicitly truncated to `w` bytes, as the Rust `write_u32/u16/u8`
calls do). -/
def toLE (w n : Nat) : List Nat :=
  (List.range w).map (fun i => n / 256 ^ i % 256)

/-- Little-endian deserialisation of a byte list. -/
def fromLE (l : List Nat) : Nat :=
  l.foldr (fun b acc => b + 256 * acc) 0

@[simp] theorem toLE_length (w n : Nat) : (toLE w n).length = w := by
  simp [toLE]

theorem toLE_succ (w n : Nat) :
    toLE (w + 1) n = n % 256 :: toLE w (n / 256) := by
  simp only [toLE, List.range_succ_eq_map, List.map_cons, pow_zero,
    Nat.div_one, List.map_map]
  congr 1
  apply List.map_congr_left
  intro i _
  simp only [Function.comp_apply]
  rw [Nat.div_div_eq_div_mul, ← pow_succ']

theorem fromLE_toLE (w n : Nat) : fromLE (toLE w n) = n % 256 ^ w := by
  induction w generalizing n with
  | zero => simp [toLE, fromLE, Nat.mod_one]
  | succ w ih =>
    rw [toLE_succ]
    simp only [fromLE, List.foldr_cons] at *
    rw [ih (n / 256), pow_succ', Nat.mod_mul]

theorem fromLE_lt (l : List Nat) (h : ByteList l) :
    fromLE l < 256 ^ l.length := by
  induction l with
  | nil => simp [fromLE]
  | cons b rest ih =>
    simp only [fromLE, List.foldr_cons, List.length_cons]
    have hb : b < 256 := h b (List.mem_cons_self _ _)
    have hr : fromLE rest < 256 ^ rest.length :=
      ih (fun x hx => h x (List.mem_cons_of_mem _ hx))
    calc b + 256 * fromLE rest
        ≤ 255 + 256 * fromLE rest := by omega
      _ < 256 * (fromLE rest + 1) := by omega
      _ ≤ 256 * 256 ^ rest.length := by
          have : fromLE rest + 1 ≤ 256 ^ rest.length := hr
          exact Nat.mul_le_mul_left _ this
      _ = 256 ^ (rest.length + 1) := by rw [pow_succ]; ring

theorem toLE_byteList (w n : Nat) : ByteList (toLE w n) := by
  intro b hb
  simp only [toLE, List.mem_map, List.mem_range] at hb
  obtain ⟨i, _, rfl⟩ := hb
  exact Nat.mod_lt _ (by norm_num)

/-- The `w` bytes of a buffer starting at position `p`, read through a
cursor: `some` exactly when the read does not run off the end
(`Read::read_exact` semantics). -/
def bytesAt (b : List Nat) (p n : Nat) : Option (List Nat) :=
  if p + n ≤ b.length then some ((b.drop p).take n) else none

/-- Unchecked little-endian u32 read at a byte offset (used only at
positions known to be in range). -/
def u32At (b : List Nat) (p : Nat) : Nat := fromLE ((b.drop p).take 4)

/-- Unchecked little-endian u16 read at a byte offset. -/
def u16At (b : List Nat) (p : Nat) : Nat := fromLE ((b.drop p).take 2)

/-- Unchecked u8 read at a byte offset. -/
def u8At (b : List Nat) (p : Nat) : Nat := fromLE ((b.drop p).take 1)

theorem bytesAt_append_left (xs ys : List Nat) (p n : Nat)
    (h : p + n ≤ xs.length) : bytesAt (xs ++ ys) p n = bytesAt xs p n := by
  unfold bytesAt
  rw [List.drop_append_of_le_length (by omega), List.take_append_of_le_length]
  · rw [if_pos (by simp; omega), if_pos h]
  · simp; omega

theorem u32At_append_left (xs ys : List Nat) (p : Nat)
    (h : p + 4 ≤ xs.length) : u32At (xs ++ ys) p = u32At xs p := by
  unfold u32At
  rw [List.drop_append_of_le_length (by omega), List.take_append_of_le_length]
  simp; omega

/-! ## `DataView` (src/bnl.rs lines 34-74)

`DataView` is a `(offset: u32, size: u32)` pair. -/

@[ext]
structure DataView where
  offset : Nat
  size : Nat
deriving Repr, DecidableEq

/-! ## `VirtualResource` (src/lib.rs lines 1104-1233) -/

/-- `VirtualResourceError` (src/lib.rs lines 1109-1113). -/
inductive VirtualResourceError where
  | OffsetOutOfBounds
  | SizeOutOfBounds
deriving Repr, DecidableEq

/-- `VirtualResource` — an ordered sequence of byte slices
(src/lib.rs lines 1104-1107). -/
structure VirtualResource where
  slices : List (List Nat)
deriving Repr, DecidableEq

namespace VirtualResource

/-- `VirtualResource::from_slices` (src/lib.rs lines 1214-1218). -/
def from_slices (slices : List (List Nat)) : VirtualResource := ⟨slices⟩

/-- `VirtualResource::len` (src/lib.rs lines 1220-1224): fold of the
slice lengths. -/
def len (vr : VirtualResource) : Nat :=
  vr.slices.foldl (fun acc s => acc + s.length) 0

/-- `VirtualResource::from_dvl` (src/lib.rs lines 1122-1144): for each
view, check `offset > bytes.len()` (offset error) then
`bytes.len() - offset < size` (size error), and slice the pool. -/
def from_dvl (views : List DataView) (bytes : List Nat) :
    Except VirtualResourceError (List (List Nat)) :=
  match views with
  | [] => .ok []
  | v :: rest =>
    if v.offset > bytes.length then .error .OffsetOutOfBounds
    else if bytes.length - v.offset < v.size then .error .SizeOutOfBounds
    else
      match from_dvl rest bytes with
      | .error e => .error e
      | .ok tl => .ok (((bytes.drop v.offset).take v.size) :: tl)

/-- The copy loop inside `VirtualResource::get_bytes` (src/lib.rs lines
1162-1190).  State: the output buffer `v`, the running `slice_start`
offset `ss` and the `total_written` count `tw`.  The slice-index
expressions `slice[cp_i..cp_j]` and `v[tw..tw + cp_size]` are modelled
with explicit bounds checks whose failure is a Rust panic.
(`get_size - total_written` and `slice_size - cp_i` cannot underflow on
any reachable path, so plain truncated `Nat` subtraction is faithful
there; `start_offset.saturating_sub(slice_start)` is saturating in the
source itself.) -/
def gbLoop (start size : Nat) :
    List (List Nat) → List Nat → Nat → Nat → PRes VirtualResourceError (List Nat × Nat)
  | [], v, _, tw => .ok (v, tw)
  | s :: rest, v, ss, tw =>
    if ss + s.length > start then
      let desired := size - tw
      let cpI := start - ss
      let cpSize := min desired (s.length - cpI)
      let cpJ := cpI + cpSize
      if cpJ ≤ s.length ∧ tw + cpSize ≤ v.length then
        let piece := (s.drop cpI).take cpSize
        let v2 := v.take tw ++ piece ++ v.drop (tw + cpSize)
        if tw + cpSize > size then .err .SizeOutOfBounds
        else if tw + cpSize = size then .ok (v2, size)
        else gbLoop start size rest v2 (ss + s.length) (tw + cpSize)
      else .panicked
    else gbLoop start size rest v (ss + s.length) tw

/-- `VirtualResource::get_bytes` (src/lib.rs lines 1146-1197). -/
def get_bytes (vr : VirtualResource) (start_offset get_size : Nat) :
    PRes VirtualResourceError (List Nat) :=
  let e := vr.len
  if e < start_offset then .err .OffsetOutOfBounds
  else if e - start_offset < get_size then .err .SizeOutOfBounds
  else
    match gbLoop start_offset get_size vr.slices (List.replicate get_size 0) 0 0 with
    | .ok (v, tw) => if tw ≠ get_size then .err .SizeOutOfBounds else .ok v
    | .err e => .err e
    | .panicked => .panicked

theorem foldl_len_eq (l : List (List Nat)) (acc : Nat) :
    l.foldl (fun a s => a + s.length) acc = acc + (l.map List.length).sum := by
  induction l generalizing acc with
  | nil => simp
  | cons s rest ih =>
    simp only [List.foldl_cons, List.map_cons, List.sum_cons, ih]
    ring

theorem len_eq_join_length (vr : VirtualResource) :
    vr.len = vr.slices.flatten.length := by
  show vr.slices.foldl (fun acc s => acc + s.length) 0 = _
  rw [List.length_flatten, foldl_len_eq]
  simp

theorem drop_append_ge (l₁ l₂ : List Nat) (n : Nat) (h : l₁.length ≤ n) :
    (l₁ ++ l₂).drop n = l₂.drop (n - l₁.length) := by
  have h2 : n = l₁.length + (n - l₁.length) := by omega
  rw [h2, List.drop_append]
  congr 1
  omega

theorem gbLoop_nil (start size : Nat) (v : List Nat) (ss tw : Nat) :
    gbLoop start size [] v ss tw = .ok (v, tw) := rfl

theorem gbLoop_cons (start size : Nat) (s : List Nat) (rest : List (List Nat))
    (v : List Nat) (ss tw : Nat) :
    gbLoop start size (s :: rest) v ss tw =
      if ss + s.length > start then
        if (start - ss) + min (size - tw) (s.length - (start - ss)) ≤ s.length
            ∧ tw + min (size - tw) (s.length - (start - ss)) ≤ v.length then
          if tw + min (size - tw) (s.length - (start - ss)) > size then
            .err .SizeOutOfBounds
          else if tw + min (size - tw) (s.length - (start - ss)) = size then
            .ok (v.take tw
                  ++ (s.drop (start - ss)).take (min (size - tw) (s.length - (start - ss)))
                  ++ v.drop (tw + min (size - tw) (s.length - (start - ss))), size)
          else
            gbLoop start size rest
              (v.take tw
                ++ (s.drop (start - ss)).take (min (size - tw) (s.length - (start - ss)))
                ++ v.drop (tw + min (size - tw) (s.length - (start - ss))))
              (ss + s.length)
              (tw + min (size - tw) (s.length - (start - ss)))
        else .panicked
      else gbLoop start size rest v (ss + s.length) tw := rfl

/-- Invariant-based correctness of the `get_bytes` copy loop: if the
output buffer `v` holds the first `tw` bytes of the intended result
`out` followed by zero padding, and the still-missing bytes of `out`
are exactly the relevant window of the remaining slices, the loop
completes `out`. -/
theorem gbLoop_correct (start size : Nat) :
    ∀ (rest : List (List Nat)) (v out : List Nat) (ss tw : Nat),
      v.length = size →
      out.length = size →
      tw = min size (ss - start) →
      v = out.take tw ++ List.replicate (size - tw) 0 →
      out.drop tw = ((rest.flatten).drop (start + tw - ss)).take (size - tw) →
      start + size ≤ ss + rest.flatten.length →
      gbLoop start size rest v ss tw = .ok (out, size) := by
  intro rest
  induction rest with
  | nil =>
    intro v out ss tw hv hout hpos hpre hrest henough
    simp only [List.flatten_nil, List.drop_nil, List.take_nil] at hrest
    have h1 : (out.drop tw).length = 0 := by rw [hrest]; rfl
    rw [List.length_drop, hout] at h1
    have htw : tw = size := by omega
    have hvout : v = out := by
      rw [hpre, htw, Nat.sub_self, List.replicate_zero, List.append_nil,
        List.take_of_length_le (le_of_eq hout)]
    rw [gbLoop_nil, hvout, htw]
  | cons s rest ih =>
    intro v out ss tw hv hout hpos hpre hrest henough
    have htw_le : tw ≤ size := by omega
    simp only [List.flatten_cons] at hrest henough
    rw [gbLoop_cons]
    by_cases hcond : ss + s.length > start
    · -- copy branch
      rw [if_pos hcond]
      set cpI := start - ss with hcpI
      set cpSize := min (size - tw) (s.length - cpI) with hcpSize
      have hcpI_le : cpI ≤ s.length := by omega
      have hcp_le : cpSize ≤ size - tw := by omega
      have hcheck : cpI + cpSize ≤ s.length ∧ tw + cpSize ≤ v.length := by
        constructor
        · omega
        · rw [hv]; omega
      rw [if_pos hcheck, if_neg (show ¬ (tw + cpSize > size) by omega)]
      have htake_out_len : (out.take tw).length = tw := by
        rw [List.length_take]; omega
      have hvtake : v.take tw = out.take tw := by
        rw [hpre, List.take_append_of_le_length (by omega), List.take_take,
          Nat.min_self]
      have hpiece : tw < size →
          (out.drop tw).take cpSize = (s.drop cpI).take cpSize := by
        intro hlt
        have hcpI' : start + tw - ss = cpI := by omega
        calc (out.drop tw).take cpSize
            = (((s ++ rest.flatten).drop cpI).take (size - tw)).take cpSize := by
              rw [hrest, hcpI']
          _ = ((s ++ rest.flatten).drop cpI).take cpSize := by
              rw [List.take_take, Nat.min_eq_left hcp_le]
          _ = ((s.drop cpI) ++ rest.flatten).take cpSize := by
              rw [List.drop_append_of_le_length hcpI_le]
          _ = (s.drop cpI).take cpSize := by
              apply List.take_append_of_le_length
              rw [List.length_drop]
              omega
      by_cases hbreak : tw + cpSize = size
      · rw [if_pos hbreak]
        have hv2 : v.take tw ++ (s.drop cpI).take cpSize ++ v.drop (tw + cpSize)
            = out := by
          rw [show v.drop (tw + cpSize) = ([] : List Nat) from
              List.drop_eq_nil_of_le (by omega),
            List.append_nil, hvtake]
          by_cases hlt : tw < size
          · rw [← hpiece hlt,
              show (out.drop tw).take cpSize = out.drop tw from
                List.take_of_length_le (by rw [List.length_drop]; omega),
              List.take_append_drop]
          · have htw : tw = size := by omega
            have hcp0 : cpSize = 0 := by omega
            rw [hcp0, List.take_zero, List.append_nil, htw,
              List.take_of_length_le (le_of_eq hout)]
        rw [hv2]
      · rw [if_neg hbreak]
        have hlt : tw < size := by omega
        have hcpfull : cpSize = s.length - cpI := by omega
        have hcpI' : start + tw - ss = cpI := by omega
        have hpiece_len : ((s.drop cpI).take cpSize).length = cpSize := by
          rw [List.length_take, List.length_drop]; omega
        apply ih
        · rw [List.length_append, List.length_append, hpiece_len,
            List.length_take, List.length_drop, hv]
          omega
        · exact hout
        · omega
        · -- the updated buffer is the longer prefix of out plus padding
          have h2 : v.drop (tw + cpSize)
              = List.replicate (size - (tw + cpSize)) 0 := by
            rw [hpre,
              drop_append_ge (out.take tw) (List.replicate (size - tw) 0)
                (tw + cpSize) (by rw [htake_out_len]; omega),
              htake_out_len, List.drop_replicate]
            congr 1
            omega
          rw [hvtake, ← hpiece hlt, h2, List.take_add, List.append_assoc]
        · -- remaining window invariant
          have hdd : out.drop (tw + cpSize) = (out.drop tw).drop cpSize := by
            rw [List.drop_drop]
          rw [hdd, hrest, hcpI', List.drop_take, List.drop_drop,
            show cpI + cpSize = s.length by omega,
            show (s ++ rest.flatten).drop s.length = rest.flatten from
              List.drop_left _ _,
            show start + (tw + cpSize) - (ss + s.length) = 0 by omega,
            List.drop_zero]
          congr 1
          omega
        · rw [List.length_append] at henough
          omega
    · -- skip branch
      rw [if_neg hcond]
      have htw0 : tw = 0 := by omega
      apply ih
      · exact hv
      · exact hout
      · omega
      · exact hpre
      · rw [hrest, drop_append_ge s rest.flatten (start + tw - ss) (by omega),
          show start + tw - ss - s.length = start + tw - (ss + s.length) by omega]
      · rw [List.length_append] at henough
        omega

/-- The copy loop never reaches either of its panic points. -/
theorem gbLoop_no_panic (start size : Nat) :
    ∀ (rest : List (List Nat)) (v : List Nat) (ss tw : Nat),
      v.length = size → tw ≤ size →
      gbLoop start size rest v ss tw ≠ .panicked := by
  intro rest
  induction rest with
  | nil => intro v ss tw hv htw; rw [gbLoop_nil]; simp
  | cons s rest ih =>
    intro v ss tw hv htw
    rw [gbLoop_cons]
    by_cases hcond : ss + s.length > start
    · rw [if_pos hcond]
      set cpI := start - ss with hcpI
      set cpSize := min (size - tw) (s.length - cpI) with hcpSize
      have hcheck : cpI + cpSize ≤ s.length ∧ tw + cpSize ≤ v.length := by
        constructor
        · omega
        · rw [hv]; omega
      rw [if_pos hcheck]
      by_cases hgt : tw + cpSize > size
      · rw [if_pos hgt]; simp
      · rw [if_neg hgt]
        by_cases heq : tw + cpSize = size
        · rw [if_pos heq]; simp
        · rw [if_neg heq]
          apply ih
          · rw [List.length_append, List.length_append, List.length_take,
              List.length_take, List.length_drop, List.length_drop, hv]
            omega
          · omega
    · rw [if_neg hcond]
      exact ih v (ss + s.length) tw hv htw

theorem from_slices_slices (slices : List (List Nat)) :
    (from_slices slices).slices = slices := rfl

/-- In-bounds reads return exactly the requested window of the logical
concatenation of the slices. -/
theorem get_bytes_spec (slices : List (List Nat)) (start size : Nat)
    (h : start + size ≤ slices.flatten.length) :
    (from_slices slices).get_bytes start size
      = .ok ((slices.flatten.drop start).take size) := by
  have hlen : (from_slices slices).len = slices.flatten.length :=
    len_eq_join_length _
  have hout_len : ((slices.flatten.drop start).take size).length = size := by
    rw [List.length_take, List.length_drop]; omega
  simp only [get_bytes, from_slices_slices]
  rw [hlen, if_neg (by omega), if_neg (by omega)]
  rw [gbLoop_correct start size slices (List.replicate size 0)
      ((slices.flatten.drop start).take size) 0 0 (by simp) hout_len (by simp)
      (by simp) (by simp) (by omega)]
  simp

theorem get_bytes_offset_oob (vr : VirtualResource) (start size : Nat)
    (h : vr.len < start) :
    vr.get_bytes start size = .err .OffsetOutOfBounds := by
  simp only [get_bytes]
  rw [if_pos h]

theorem get_bytes_size_oob (vr : VirtualResource) (start size : Nat)
    (h1 : start ≤ vr.len) (h2 : vr.len - start < size) :
    vr.get_bytes start size = .err .SizeOutOfBounds := by
  simp only [get_bytes]
  rw [if_neg (by omega), if_pos h2]

/-- `get_bytes` can fail but can never panic, for any request on any
resource. -/
theorem get_bytes_no_panic (vr : VirtualResource) (start size : Nat) :
    vr.get_bytes start size ≠ .panicked := by
  simp only [get_bytes]
  by_cases h1 : vr.len < start
  · rw [if_pos h1]; simp
  · rw [if_neg h1]
    by_cases h2 : vr.len - start < size
    · rw [if_pos h2]; simp
    · rw [if_neg h2]
      have hnp := gbLoop_no_panic start size vr.slices (List.replicate size 0)
        0 0 (by simp) (by omega)
      cases hres : gbLoop start size vr.slices (List.replicate size 0) 0 0 with
      | ok p =>
        obtain ⟨v, tw⟩ := p
        by_cases h3 : tw = size
        · simp [h3]
        · simp [h3]
      | err e => simp
      | panicked => exact absurd hres hnp

/-- All in-bounds views resolve to the corresponding pool sub-slices. -/
theorem from_dvl_ok (pool : List Nat) :
    ∀ views : List DataView,
      (∀ v ∈ views, v.offset ≤ pool.length ∧ v.size ≤ pool.length - v.offset) →
      from_dvl views pool
        = .ok (views.map (fun v => (pool.drop v.offset).take v.size)) := by
  intro views
  induction views with
  | nil => intro _; rfl
  | cons v rest ih =>
    intro h
    have hv := h v (List.mem_cons_self _ _)
    rw [from_dvl]
    rw [if_neg (by omega), if_neg (by omega),
      ih (fun w hw => h w (List.mem_cons_of_mem _ hw))]
    rfl

/-- The first view whose offset lies beyond the pool aborts resolution
with `OffsetOutOfBounds`. -/
theorem from_dvl_offset_oob (pool : List Nat) (v : DataView)
    (hv : v.offset > pool.length) :
    ∀ pre rest : List DataView,
      (∀ w ∈ pre, w.offset ≤ pool.length ∧ w.size ≤ pool.length - w.offset) →
      from_dvl (pre ++ v :: rest) pool = .error .OffsetOutOfBounds := by
  intro pre
  induction pre with
  | nil =>
    intro rest _
    rw [List.nil_append, from_dvl, if_pos hv]
  | cons w pre ih =>
    intro rest h
    have hw := h w (List.mem_cons_self _ _)
    rw [List.cons_append, from_dvl, if_neg (by omega), if_neg (by omega),
      ih rest (fun x hx => h x (List.mem_cons_of_mem _ hx))]

/-- The first view whose size runs past the end of the pool aborts
resolution with `SizeOutOfBounds`. -/
theorem from_dvl_size_oob (pool : List Nat) (v : DataView)
    (hv1 : v.offset ≤ pool.length) (hv2 : pool.length - v.offset < v.size) :
    ∀ pre rest : List DataView,
      (∀ w ∈ pre, w.offset ≤ pool.length ∧ w.size ≤ pool.length - w.offset) →
      from_dvl (pre ++ v :: rest) pool = .error .SizeOutOfBounds := by
  intro pre
  induction pre with
  | nil =>
    intro rest _
    rw [List.nil_append, from_dvl, if_neg (by omega), if_pos hv2]
  | cons w pre ih =>
    intro rest h
    have hw := h w (List.mem_cons_self _ _)
    rw [List.cons_append, from_dvl, if_neg (by omega), if_neg (by omega),
      ih rest (fun x hx => h x (List.mem_cons_of_mem _ hx))]

end VirtualResource

/-! ## UTF-8 and `AssetMetadata::name` (src/bnl.rs lines 112-165) -/

/-- A UTF-8 continuation byte (`0x80..=0xBF`). -/
def utf8Cont (b : Nat) : Bool := decide (128 ≤ b ∧ b ≤ 191)

/-- Validity of a byte sequence as UTF-8, exactly as `std::str::from_utf8`
checks it (RFC 3629: no overlong forms, no surrogates, max U+10FFFF). -/
def utf8Valid : List Nat → Bool
  | [] => true
  | b :: rest =>
    if b < 128 then utf8Valid rest
    else if 194 ≤ b ∧ b ≤ 223 then
      match rest with
      | c1 :: r => utf8Cont c1 && utf8Valid r
      | [] => false
    else if b = 224 then
      match rest with
      | c1 :: c2 :: r => decide (160 ≤ c1 ∧ c1 ≤ 191) && utf8Cont c2 && utf8Valid r
      | _ => false
    else if 225 ≤ b ∧ b ≤ 236 then
      match rest with
      | c1 :: c2 :: r => utf8Cont c1 && utf8Cont c2 && utf8Valid r
      | _ => false
    else if b = 237 then
      match rest with
      | c1 :: c2 :: r => decide (128 ≤ c1 ∧ c1 ≤ 159) && utf8Cont c2 && utf8Valid r
      | _ => false
    else if 238 ≤ b ∧ b ≤ 239 then
      match rest with
      | c1 :: c2 :: r => utf8Cont c1 && utf8Cont c2 && utf8Valid r
      | _ => false
    else if b = 240 then
      match rest with
      | c1 :: c2 :: c3 :: r =>
        decide (144 ≤ c1 ∧ c1 ≤ 191) && utf8Cont c2 && utf8Cont c3 && utf8Valid r
      | _ => false
    else if 241 ≤ b ∧ b ≤ 243 then
      match rest with
      | c1 :: c2 :: c3 :: r => utf8Cont c1 && utf8Cont c2 && utf8Cont c3 && utf8Valid r
      | _ => false
    else if b = 244 then
      match rest with
      | c1 :: c2 :: c3 :: r =>
        decide (128 ≤ c1 ∧ c1 ≤ 143) && utf8Cont c2 && utf8Cont c3 && utf8Valid r
      | _ => false
    else false

/-- Model of `std::str::from_utf8`: a Rust `&str` is its UTF-8 bytes, so
the model returns the byte list unchanged exactly when it is valid
UTF-8. -/
def strFromUtf8 (l : List Nat) : Option (List Nat) :=
  if utf8Valid l then some l else none

/-- `AssetMetadata::name` (src/bnl.rs lines 150-156), at byte level:
`str::from_utf8(&self.name).unwrap_or("").split('\0').next().unwrap_or("")`.
`split` on the NUL character over a valid UTF-8 string is `List.splitOn 0`
on its bytes (NUL is a one-byte character, and the byte `0x00` occurs in
valid UTF-8 only as that character); `.next()` is the first element of
the split, which exists for every string. -/
def nameBytes (name : List Nat) : List Nat :=
  match strFromUtf8 name with
  | none => []
  | some s => (s.splitOn 0).headD []

theorem splitOn_zero_headD (l : List Nat) :
    (l.splitOn 0).headD [] = l.takeWhile (fun b => b != 0) := by
  induction l with
  | nil => rfl
  | cons b rest ih =>
    show ((b :: rest).splitOnP (· == 0)).headD [] = _
    rw [List.splitOnP_cons]
    by_cases hb : b = 0
    · subst hb
      simp [List.takeWhile_cons]
    · rw [if_neg (by simp [hb])]
      obtain ⟨h, t, hht⟩ :=
        List.exists_cons_of_ne_nil (List.splitOnP_ne_nil (· == 0) rest)
      have ihx : ((rest).splitOnP (· == 0)).headD [] =
          rest.takeWhile (fun b => b != 0) := ih
      rw [hht] at ihx ⊢
      simp only [List.modifyHead, List.headD] at ihx ⊢
      rw [List.takeWhile_cons, if_pos (by simp [hb])]
      rw [← ihx]

/-! ## Data model (src/bnl.rs lines 112-235) -/

/-- `AssetMetadata` (src/bnl.rs lines 112-118).  `AssetName` is a
fixed-width byte array and `AssetType` a type code; both live in the
missing `src/asset/mod.rs`, so the name is a byte list (well-formedness
fixes its width) and the type code a `Nat`. -/
@[ext]
structure AssetMetadata where
  name : List Nat
  asset_type : Nat
  unk_1 : Nat
  unk_2 : Nat
deriving Repr, DecidableEq

/-- The `name()` accessor of `AssetMetadata` (src/bnl.rs lines 150-156). -/
def AssetMetadata.nameStr (m : AssetMetadata) : List Nat := nameBytes m.name

/-- `RawAsset` (src/bnl.rs lines 167-172). -/
structure RawAsset where
  metadata : AssetMetadata
  descriptor_bytes : List Nat
  resource_chunks : Option (List (List Nat))
deriving Repr, DecidableEq

/-- `RawAsset::name` (src/bnl.rs lines 187-189). -/
def RawAsset.nameStr (ra : RawAsset) : List Nat := ra.metadata.nameStr

/-- `AssetDescription` — the fixed-size on-disk record (declared in the
missing `src/asset/mod.rs`; its fields are those used by src/bnl.rs:
`metadata`, `chunk_count`, `descriptor_ptr`, `descriptor_size`,
`dataview_list_ptr`, `resource_size`). -/
@[ext]
structure AssetDescription where
  metadata : AssetMetadata
  chunk_count : Nat
  descriptor_ptr : Nat
  descriptor_size : Nat
  dataview_list_ptr : Nat
  resource_size : Nat
deriving Repr, DecidableEq

/-- `From<AssetMetadata> for AssetDescription` (src/bnl.rs lines
126-138): hard-codes `chunk_count: 2` and zeroes all pointers/sizes. -/
def descriptionOfMetadata (m : AssetMetadata) : AssetDescription :=
  { metadata := m
    chunk_count := 2
    descriptor_ptr := 0
    descriptor_size := 0
    dataview_list_ptr := 0
    resource_size := 0 }

/-- `DataViewList` (declared in the missing `src/asset/mod.rs`; fields
`size`, `num_views`, `views` as constructed by src/bnl.rs lines
364-381). -/
@[ext]
structure DataViewList where
  size : Nat
  num_views : Nat
  views : List DataView
deriving Repr, DecidableEq

/-- `AssetError` — the closed error enumeration of the asset framework
(declared in the missing `src/asset/mod.rs`; the spec names its cases:
not-found by name, type-tag mismatch, descriptor/asset parse failure). -/
inductive AssetError where
  | NotFound
  | TypeMismatch
  | ParseError
deriving Repr, DecidableEq

/-- `Asset<T>` (spec §3): `{metadata, asset}`.  Modelled from the spec:
the struct itself lives in the missing `src/asset/mod.rs`, but
src/bnl.rs constructs it literally as `Asset { metadata, asset }`. -/
structure Asset (A : Type) where
  metadata : AssetMetadata
  asset : A
deriving Repr, DecidableEq

/-- The two per-asset-kind capability traits (`AssetDescriptor` +
`AssetLike`, declared in the missing `src/asset/mod.rs`), bundled as a
record of the functions src/bnl.rs calls on them:
`AL::asset_type()`, `AL::Descriptor::from_bytes`,
`Descriptor::to_bytes`, `AL::new`, `AL::get_descriptor`,
`AL::get_resource_chunks`. -/
structure AssetCodec (D A : Type) where
  asset_type : Nat
  descFromBytes : List Nat → Except AssetError D
  descToBytes : D → Except AssetError (List Nat)
  new : D → VirtualResource → Except AssetError A
  get_descriptor : A → D
  get_resource_chunks : A → Option (List (List Nat))

/-- `RawAsset::to_asset::<AL>` (src/bnl.rs lines 212-234): type-tag
check, then descriptor decode, then `AL::new` on a `VirtualResource`
over the resource chunks (empty slice list when `None`). -/
def RawAsset.to_asset {D A : Type} (c : AssetCodec D A) (ra : RawAsset) :
    Except AssetError (Asset A) :=
  if ra.metadata.asset_type ≠ c.asset_type then .error .TypeMismatch
  else
    match c.descFromBytes ra.descriptor_bytes with
    | .error e => .error e
    | .ok d =>
      match c.new d (VirtualResource.from_slices
          (match ra.resource_chunks with | some cs => cs | none => [])) with
      | .error e => .error e
      | .ok a => .ok ⟨ra.metadata, a⟩

/-- Modelled from the spec: `Asset<T>::to_raw_asset` lives in the
missing `src/asset/mod.rs`; spec §4.3 says it re-derives descriptor
bytes and resource chunks from the typed object and repackages them as
a RawAsset with the same metadata. -/
def Asset.to_raw_asset {D A : Type} (c : AssetCodec D A) (a : Asset A) :
    Except AssetError RawAsset :=
  match c.descToBytes (c.get_descriptor a.asset) with
  | .error e => .error e
  | .ok db => .ok ⟨a.metadata, db, c.get_resource_chunks a.asset⟩

/-! ## Fixed-size record codecs

`ASSET_DESCRIPTION_SIZE`, `AssetName` and the record codecs live in the
missing `src/asset/mod.rs`.  `AssetName` is `[u8; 128]` (its width is
pinned by src/asset/aidlist/mod.rs line 46, which converts a 128-byte
chunk into an `AssetName`). -/

def NAME_LEN : Nat := 128

def ASSET_DESCRIPTION_SIZE : Nat := NAME_LEN + 32

/-- Modelled from the spec: `AssetDescription::from_bytes` lives in the
missing `src/asset/mod.rs`.  Spec §3/§6: a fixed-size all-little-endian
record holding the fixed-width name, the type code, the two unknown
u32 fields, and `chunk_count`/`descriptor_ptr`/`descriptor_size`/
`dataview_list_ptr`/`resource_size`; spec §9 leaves the exact layout
constants open, so the model uses the 128-byte `AssetName` width
followed by the eight u32 fields.  A slice of any other length fails to
decode. -/
def AssetDescription.from_bytes (b : List Nat) : Except Unit AssetDescription :=
  if b.length = ASSET_DESCRIPTION_SIZE then
    .ok ⟨⟨b.take NAME_LEN, u32At b NAME_LEN,
          u32At b (NAME_LEN + 4), u32At b (NAME_LEN + 8)⟩,
      u32At b (NAME_LEN + 12), u32At b (NAME_LEN + 16), u32At b (NAME_LEN + 20),
      u32At b (NAME_LEN + 24), u32At b (NAME_LEN + 28)⟩
  else .error ()

/-- Modelled from the spec: `AssetDescription::to_bytes` — the inverse
fixed-size serialisation (name padded with NULs to its fixed width,
then the eight u32 fields, all little-endian). -/
def AssetDescription.to_bytes (d : AssetDescription) : List Nat :=
  (d.metadata.name.take NAME_LEN
      ++ List.replicate (NAME_LEN - d.metadata.name.length) 0)
    ++ toLE 4 d.metadata.asset_type ++ toLE 4 d.metadata.unk_1
    ++ toLE 4 d.metadata.unk_2 ++ toLE 4 d.chunk_count
    ++ toLE 4 d.descriptor_ptr ++ toLE 4 d.descriptor_size
    ++ toLE 4 d.dataview_list_ptr ++ toLE 4 d.resource_size

/-- Modelled from the spec: `DataViewList::from_bytes` (spec §4.1) lives
in the missing `src/asset/mod.rs`: it reads a 4-byte total-size field, a
4-byte count field, then `count` DataViews (8 bytes each), and fails if
the buffer is shorter than the declared layout requires. -/
def DataViewList.from_bytes (buf : List Nat) : Except Unit DataViewList :=
  if 8 + 8 * u32At buf 4 ≤ buf.length then
    .ok ⟨u32At buf 0, u32At buf 4,
      (List.range (u32At buf 4)).map
        (fun i => ⟨u32At buf (8 + 8 * i), u32At buf (8 + 8 * i + 4)⟩)⟩
  else .error ()

/-- Modelled from the spec: `DataViewList::to_bytes` (spec §4.1) —
serialises the `size` and `num_views` fields then each view's offset
and size, all little-endian u32, deterministically in view order. -/
def DataViewList.to_bytes (dvl : DataViewList) : List Nat :=
  toLE 4 dvl.size ++ toLE 4 dvl.num_views
    ++ (dvl.views.map (fun v => toLE 4 v.offset ++ toLE 4 v.size)).flatten

/-- Modelled from the spec: `DataViewList::bytes_required` — the
serialized byte size of the list (spec §3: `resource_size` "is the
DataViewList's own serialized byte size"): an 8-byte header plus 8
bytes per view. -/
def DataViewList.bytes_required (dvl : DataViewList) : Nat :=
  8 + 8 * dvl.views.length

/-- Modelled from the spec: `DataViewList::slices(buffer_pool)` (spec
§4.1): for every DataView, bounds-check offset and size against the
pool and yield the corresponding sub-slice, failing with the
distinguishable out-of-bounds error kinds — the same checks
`VirtualResource::from_dvl` (src/lib.rs lines 1122-1144) performs. -/
def DataViewList.slices (dvl : DataViewList) (pool : List Nat) :
    Except VirtualResourceError (List (List Nat)) :=
  VirtualResource.from_dvl dvl.views pool

/-! ## `BNLFile` container (src/bnl.rs) -/

/-- `BNLError` (src/bnl.rs lines 691-697).  The `String` payload of
`DataReadError` is irrelevant to every claim and is dropped. -/
inductive BNLError where
  | DecompressionFailure
  | DataReadError
deriving Repr, DecidableEq

/-- `BNLHeader` (src/bnl.rs lines 22-32). -/
structure BNLHeader where
  file_count : Nat
  flags : Nat
  unknown_2 : List Nat
  asset_desc_loc : DataView
  buffer_views_loc : DataView
  buffer_loc : DataView
  descriptor_loc : DataView
deriving Repr, DecidableEq

/-- `BNLHeader::to_bytes` (src/bnl.rs lines 76-110): 40 bytes,
little-endian, in field order. -/
def BNLHeader.to_bytes (h : BNLHeader) : List Nat :=
  toLE 2 h.file_count ++ toLE 1 h.flags ++ (h.unknown_2.map (· % 256))
    ++ toLE 4 h.asset_desc_loc.offset ++ toLE 4 h.asset_desc_loc.size
    ++ toLE 4 h.buffer_views_loc.offset ++ toLE 4 h.buffer_views_loc.size
    ++ toLE 4 h.buffer_loc.offset ++ toLE 4 h.buffer_loc.size
    ++ toLE 4 h.descriptor_loc.offset ++ toLE 4 h.descriptor_loc.size

/-- The header-parse phase of `BNLFile::from_bytes` (src/bnl.rs lines
259-272).  Its only caller has already checked that the input holds at
least 40 bytes, so none of the cursor reads can fail. -/
def parseHeader (b : List Nat) : BNLHeader :=
  ⟨u16At b 0, u8At b 2, (b.drop 3).take 5,
    ⟨u32At b 8, u32At b 12⟩, ⟨u32At b 16, u32At b 20⟩,
    ⟨u32At b 24, u32At b 28⟩, ⟨u32At b 32, u32At b 36⟩⟩

/-- `BNLFile` (src/bnl.rs lines 16-20). -/
structure BNLFile where
  header : BNLHeader
  assets : List RawAsset
deriving Repr, DecidableEq

/-- One section read in `BNLFile::from_bytes` (src/bnl.rs lines
291-309): seek to `loc.offset` and `read_exact` `loc.size` bytes.  A
zero-length `read_exact` succeeds even with the cursor past the end of
the buffer; otherwise the read fails (`DataReadError` via
`From<std::io::Error>`) exactly when it would run off the end. -/
def readSection (bytes : List Nat) (loc : DataView) :
    Except BNLError (List Nat) :=
  if loc.size = 0 then .ok []
  else if loc.offset + loc.size ≤ bytes.length then
    .ok ((bytes.drop loc.offset).take loc.size)
  else .error .DataReadError

/-- The per-record body of the decode loop in `BNLFile::from_bytes`
(src/bnl.rs lines 317-344): slice the descriptor bytes out of the
descriptor section (`descriptor_bytes[desc_start..desc_end]` is a Rust
slice-index that panics when `desc_end` exceeds the section length);
then, unless `resource_size == 0`, parse the `DataViewList` at
`dataview_list_ptr` (`&buffer_views_bytes[ptr..]` panics when `ptr`
exceeds the section length) and resolve its slices against the buffer
section, materialising each as an owned chunk. -/
def decodeRecord (descSec viewsSec bufSec : List Nat) (d : AssetDescription) :
    PRes BNLError RawAsset :=
  if d.descriptor_ptr + d.descriptor_size > descSec.length then .panicked
  else
    let descBytes := (descSec.drop d.descriptor_ptr).take d.descriptor_size
    if d.resource_size = 0 then .ok ⟨d.metadata, descBytes, none⟩
    else if d.dataview_list_ptr > viewsSec.length then .panicked
    else
      match DataViewList.from_bytes (viewsSec.drop d.dataview_list_ptr) with
      | .error _ => .err .DataReadError
      | .ok dvl =>
        match dvl.slices bufSec with
        | .error _ => .err .DataReadError
        | .ok sl => .ok ⟨d.metadata, descBytes, some sl⟩

/-- The decode loop of `BNLFile::from_bytes` (src/bnl.rs lines
311-345): read `n` consecutive `ASSET_DESCRIPTION_SIZE`-byte records
from the combined buffer starting at position `p`, decode each record
and accumulate the resulting `RawAsset`s in order. -/
def parseRecords (combined descSec viewsSec bufSec : List Nat) :
    Nat → Nat → PRes BNLError (List RawAsset)
  | 0, _ => .ok []
  | n + 1, p =>
    match bytesAt combined p ASSET_DESCRIPTION_SIZE with
    | none => .err .DataReadError
    | some chunk =>
      match AssetDescription.from_bytes chunk with
      | .error _ => .err .DataReadError
      | .ok d =>
        match decodeRecord descSec viewsSec bufSec d with
        | .panicked => .panicked
        | .err e => .err e
        | .ok ra =>
          match parseRecords combined descSec viewsSec bufSec n
              (p + ASSET_DESCRIPTION_SIZE) with
          | .ok rest => .ok (ra :: rest)
          | .err e => .err e
          | .panicked => .panicked

/-- `BNLFile::from_bytes` (src/bnl.rs lines 256-348).  The very first
statement, `bnl_bytes[..40].to_vec()`, is a Rust slice-index that
panics whenever the input is shorter than 40 bytes.  `inflate` stands
for the external `miniz_oxide::inflate::decompress_to_vec_zlib`; the
number of records is `asset_desc_loc.size / ASSET_DESCRIPTION_SIZE`
(line 284) and the loop restarts at `asset_desc_loc.offset` (line
311). -/
def BNLFile.from_bytes (inflate : List Nat → Option (List Nat))
    (input : List Nat) : PRes BNLError BNLFile :=
  if input.length < 40 then .panicked
  else
    let header := parseHeader input
    match inflate (input.drop 40) with
    | none => .err .DecompressionFailure
    | some d =>
      let bytes := input.take 40 ++ d
      let n := header.asset_desc_loc.size / ASSET_DESCRIPTION_SIZE
      match readSection bytes header.asset_desc_loc with
      | .error e => .err e
      | .ok _ =>
        match readSection bytes header.buffer_views_loc with
        | .error e => .err e
        | .ok viewsSec =>
          match readSection bytes header.buffer_loc with
          | .error e => .err e
          | .ok bufSec =>
            match readSection bytes header.descriptor_loc with
            | .error e => .err e
            | .ok descSec =>
              match parseRecords bytes descSec viewsSec bufSec n
                  header.asset_desc_loc.offset with
              | .panicked => .panicked
              | .err e => .err e
              | .ok assets => .ok ⟨header, assets⟩

/-- The four section buffers grown by the encode loop of
`BNLFile::to_bytes`. -/
structure Sections where
  descSec : List Nat
  viewsSec : List Nat
  bufSec : List Nat
  descrSec : List Nat
deriving Repr, DecidableEq

/-- One iteration of the encode loop of `BNLFile::to_bytes`
(src/bnl.rs lines 357-401): build a fresh `AssetDescription` from the
metadata (`metadata.into()`, which hard-codes `chunk_count = 2`); if
the asset carries resource chunks, append each chunk to the buffer
section recording a `DataView` at the pre-append length (`as u32`),
serialise the resulting `DataViewList` into the buffer-views section
and record `dataview_list_ptr`/`resource_size`; then append the
descriptor bytes recording `descriptor_ptr`/`descriptor_size`, and
serialise the record into the asset-description section slot. -/
def encodeStep (s : Sections) (a : RawAsset) : Sections :=
  let d0 := descriptionOfMetadata a.metadata
  match a.resource_chunks with
  | none =>
    let d2 := { d0 with descriptor_ptr := s.descrSec.length % 2 ^ 32,
                        descriptor_size := a.descriptor_bytes.length % 2 ^ 32 }
    { s with descrSec := s.descrSec ++ a.descriptor_bytes,
             descSec := s.descSec ++ d2.to_bytes }
  | some chunks =>
    let pr := chunks.foldl
      (fun (pr : List DataView × List Nat) c =>
        (pr.1 ++ [⟨pr.2.length % 2 ^ 32, c.length % 2 ^ 32⟩], pr.2 ++ c))
      ([], s.bufSec)
    let dvl : DataViewList :=
      ⟨(8 + 8 * chunks.length) % 2 ^ 32, chunks.length % 2 ^ 32, pr.1⟩
    let d1 := { d0 with dataview_list_ptr := s.viewsSec.length % 2 ^ 32,
                        resource_size := dvl.bytes_required % 2 ^ 32 }
    let d2 := { d1 with descriptor_ptr := s.descrSec.length % 2 ^ 32,
                        descriptor_size := a.descriptor_bytes.length % 2 ^ 32 }
    { descSec := s.descSec ++ d2.to_bytes,
      viewsSec := s.viewsSec ++ dvl.to_bytes,
      bufSec := pr.2,
      descrSec := s.descrSec ++ a.descriptor_bytes }

/-- `BNLFile::to_bytes` (src/bnl.rs lines 350-453): rebuild all four
sections from the asset list, recompute the header (offsets 40,
40+|S1|, ... as u32; `file_count = assets.len() as u16`; flags and
unknown bytes carried over from the old header), and emit the header
followed by the deflated section concatenation.  `deflate` stands for
the external `miniz_oxide::deflate::compress_to_vec_zlib`. -/
def BNLFile.to_bytes (deflate : List Nat → List Nat) (bnl : BNLFile) :
    List Nat :=
  let s := bnl.assets.foldl encodeStep ⟨[], [], [], []⟩
  let header : BNLHeader :=
    { file_count := bnl.assets.length % 2 ^ 16
      flags := bnl.header.flags
      unknown_2 := bnl.header.unknown_2
      asset_desc_loc := ⟨40 % 2 ^ 32, s.descSec.length % 2 ^ 32⟩
      buffer_views_loc := ⟨(40 + s.descSec.length) % 2 ^ 32,
        s.viewsSec.length % 2 ^ 32⟩
      buffer_loc := ⟨(40 + s.descSec.length + s.viewsSec.length) % 2 ^ 32,
        s.bufSec.length % 2 ^ 32⟩
      descriptor_loc :=
        ⟨(40 + s.descSec.length + s.viewsSec.length + s.bufSec.length) % 2 ^ 32,
        s.descrSec.length % 2 ^ 32⟩ }
  header.to_bytes ++ deflate (s.descSec ++ s.viewsSec ++ s.bufSec ++ s.descrSec)

/-- `BNLFile::get_raw_asset` (src/bnl.rs lines 555-559): linear scan by
name. -/
def BNLFile.get_raw_asset (bnl : BNLFile) (name : List Nat) :
    Option RawAsset :=
  bnl.assets.find? (fun a => a.metadata.nameStr == name)

/-- `BNLFile::get_asset::<AL>` (src/bnl.rs lines 472-496): lookup by
name, type-tag check, descriptor decode, `AL::new` over a
`VirtualResource` of the chunks. -/
def BNLFile.get_asset {D A : Type} (c : AssetCodec D A) (bnl : BNLFile)
    (name : List Nat) : Except AssetError (Asset A) :=
  match bnl.get_raw_asset name with
  | none => .error .NotFound
  | some ra =>
    if ra.metadata.asset_type ≠ c.asset_type then .error .TypeMismatch
    else
      match c.descFromBytes ra.descriptor_bytes with
      | .error e => .error e
      | .ok d =>
        match c.new d (VirtualResource.from_slices
            (match ra.resource_chunks with | some cs => cs | none => [])) with
        | .error e => .error e
        | .ok a => .ok ⟨ra.metadata, a⟩

/-- The in-place mutation of `BNLFile::modify_asset` over the assets
list (src/bnl.rs lines 646-660): find the first asset with the given
name (`get_raw_asset_mut`); clone it and decode (`to_asset`), apply the
caller closure, re-encode (`to_raw_asset`) and overwrite the found
element.  Every `?` early-return leaves the list untouched, so the
model returns the (result, final list) pair. -/
def modifyAssetList {D A : Type} (c : AssetCodec D A)
    (f : Asset A → Except AssetError (Asset A)) (name : List Nat) :
    List RawAsset → Except AssetError Unit × List RawAsset
  | [] => (.error .NotFound, [])
  | ra :: rest =>
    if ra.metadata.nameStr == name then
      match ra.to_asset c with
      | .error e => (.error e, ra :: rest)
      | .ok a0 =>
        match f a0 with
        | .error e => (.error e, ra :: rest)
        | .ok a1 =>
          match a1.to_raw_asset c with
          | .error e => (.error e, ra :: rest)
          | .ok ra1 => (.ok (), ra1 :: rest)
    else
      ((modifyAssetList c f name rest).1,
        ra :: (modifyAssetList c f name rest).2)

/-- `BNLFile::modify_asset::<AL>` (src/bnl.rs lines 646-660), as a
state-passing function: the result of the call together with the
archive afterwards. -/
def BNLFile.modify_asset {D A : Type} (c : AssetCodec D A)
    (f : Asset A → Except AssetError (Asset A)) (bnl : BNLFile)
    (name : List Nat) : Except AssetError Unit × BNLFile :=
  ((modifyAssetList c f name bnl.assets).1,
    { bnl with assets := (modifyAssetList c f name bnl.assets).2 })

/-! ## `AidList` (src/asset/aidlist/mod.rs) -/

/-- `AidList` (src/asset/aidlist/mod.rs lines 22-25): the decoded asset
id strings. -/
structure AidList where
  asset_ids : List (List Nat)
deriving Repr, DecidableEq

/-- `AidList::get_resource_chunks` (src/asset/aidlist/mod.rs lines
122-124): literally `None`. -/
def AidList.get_resource_chunks (_ : AidList) : Option (List (List Nat)) :=
  none

/-! ## Byte-extraction utilities for the codec proofs -/

theorem u32At_shift (xs ys : List Nat) (k : Nat) :
    u32At (xs ++ ys) (xs.length + k) = u32At ys k := by
  unfold u32At
  rw [List.drop_append]

theorem u32At_at (xs ys : List Nat) (p k : Nat) (hp : p = xs.length + k) :
    u32At (xs ++ ys) p = u32At ys k := by
  subst hp
  exact u32At_shift xs ys k

theorem u32At_here (v : Nat) (rest : List Nat) (hv : v < 2 ^ 32) :
    u32At (toLE 4 v ++ rest) 0 = v := by
  unfold u32At
  rw [List.drop_zero, List.take_left' (toLE_length 4 v), fromLE_toLE,
    show (256 : Nat) ^ 4 = 2 ^ 32 by norm_num]
  exact Nat.mod_eq_of_lt hv

theorem u32At_skip (v : Nat) (rest : List Nat) (p k : Nat)
    (hp : p = 4 + k) : u32At (toLE 4 v ++ rest) p = u32At rest k := by
  subst hp
  exact u32At_at _ _ _ _ (by simp)

theorem byteList_take (l : List Nat) (n : Nat) (h : ByteList l) :
    ByteList (l.take n) := fun x hx => h x (List.mem_of_mem_take hx)

theorem byteList_drop (l : List Nat) (n : Nat) (h : ByteList l) :
    ByteList (l.drop n) := fun x hx => h x (List.mem_of_mem_drop hx)

theorem byteList_append (l₁ l₂ : List Nat) (h₁ : ByteList l₁)
    (h₂ : ByteList l₂) : ByteList (l₁ ++ l₂) := by
  intro x hx
  rcases List.mem_append.mp hx with h | h
  · exact h₁ x h
  · exact h₂ x h

theorem u32At_lt (b : List Nat) (p : Nat) (hb : ByteList b) :
    u32At b p < 2 ^ 32 := by
  have h1 : ByteList ((b.drop p).take 4) :=
    byteList_take _ _ (byteList_drop _ _ hb)
  have h2 := fromLE_lt _ h1
  have h3 : ((b.drop p).take 4).length ≤ 4 := by
    rw [List.length_take]; omega
  calc u32At b p < 256 ^ ((b.drop p).take 4).length := h2
    _ ≤ 256 ^ 4 := Nat.pow_le_pow_right (by norm_num) h3
    _ = 2 ^ 32 := by norm_num

/-! ## Round-trip lemmas for the record codecs -/

theorem AssetDescription.to_bytes_length (d : AssetDescription) :
    d.to_bytes.length = ASSET_DESCRIPTION_SIZE := by
  simp only [AssetDescription.to_bytes, List.length_append,
    List.length_take, List.length_replicate, toLE_length,
    ASSET_DESCRIPTION_SIZE, NAME_LEN]
  omega

/-- Well-formedness needed for the record codec to round-trip: the name
has its fixed width and every numeric field fits in a u32.  Every
record produced by decoding does. -/
def AssetDescription.wf (d : AssetDescription) : Prop :=
  d.metadata.name.length = NAME_LEN ∧ d.metadata.asset_type < 2 ^ 32 ∧
    d.metadata.unk_1 < 2 ^ 32 ∧ d.metadata.unk_2 < 2 ^ 32 ∧
    d.chunk_count < 2 ^ 32 ∧ d.descriptor_ptr < 2 ^ 32 ∧
    d.descriptor_size < 2 ^ 32 ∧ d.dataview_list_ptr < 2 ^ 32 ∧
    d.resource_size < 2 ^ 32

theorem AssetDescription.to_bytes_eq (d : AssetDescription)
    (hname : d.metadata.name.length = NAME_LEN) :
    d.to_bytes = d.metadata.name
      ++ (toLE 4 d.metadata.asset_type ++ (toLE 4 d.metadata.unk_1
      ++ (toLE 4 d.metadata.unk_2 ++ (toLE 4 d.chunk_count
      ++ (toLE 4 d.descriptor_ptr ++ (toLE 4 d.descriptor_size
      ++ (toLE 4 d.dataview_list_ptr ++ toLE 4 d.resource_size))))))) := by
  simp only [AssetDescription.to_bytes, hname, Nat.sub_self,
    List.replicate_zero, List.append_nil, List.append_assoc,
    List.take_of_length_le (le_of_eq hname)]

theorem u32At_last (v : Nat) (hv : v < 2 ^ 32) :
    u32At (toLE 4 v) 0 = v := by
  have h := u32At_here v [] hv
  rwa [List.append_nil] at h

theorem AssetDescription.from_to (d : AssetDescription) (h : d.wf) :
    AssetDescription.from_bytes d.to_bytes = .ok d := by
  obtain ⟨hname, ht, hu1, hu2, hcc, hdp, hds, hvp, hrs⟩ := h
  rw [AssetDescription.from_bytes, if_pos (AssetDescription.to_bytes_length d)]
  rw [AssetDescription.to_bytes_eq d hname]
  congr 1
  refine AssetDescription.ext ?_ ?_ ?_ ?_ ?_ ?_
  · refine AssetMetadata.ext ?_ ?_ ?_ ?_
    · show (d.metadata.name ++ _).take NAME_LEN = _
      exact List.take_left' hname
    · show u32At (d.metadata.name ++ _) NAME_LEN = _
      rw [u32At_at _ _ _ 0 (by omega),
        u32At_here _ _ ht]
    · show u32At (d.metadata.name ++ _) (NAME_LEN + 4) = _
      rw [u32At_at _ _ _ 4 (by omega),
        u32At_skip _ _ 4 0 (by norm_num),
        u32At_here _ _ hu1]
    · show u32At (d.metadata.name ++ _) (NAME_LEN + 8) = _
      rw [u32At_at _ _ _ 8 (by omega),
        u32At_skip _ _ 8 4 (by norm_num),
        u32At_skip _ _ 4 0 (by norm_num),
        u32At_here _ _ hu2]
  · show u32At (d.metadata.name ++ _) (NAME_LEN + 12) = _
    rw [u32At_at _ _ _ 12 (by omega),
      u32At_skip _ _ 12 8 (by norm_num),
      u32At_skip _ _ 8 4 (by norm_num),
      u32At_skip _ _ 4 0 (by norm_num),
      u32At_here _ _ hcc]
  · show u32At (d.metadata.name ++ _) (NAME_LEN + 16) = _
    rw [u32At_at _ _ _ 16 (by omega),
      u32At_skip _ _ 16 12 (by norm_num),
      u32At_skip _ _ 12 8 (by norm_num),
      u32At_skip _ _ 8 4 (by norm_num),
      u32At_skip _ _ 4 0 (by norm_num),
      u32At_here _ _ hdp]
  · show u32At (d.metadata.name ++ _) (NAME_LEN + 20) = _
    rw [u32At_at _ _ _ 20 (by omega),
      u32At_skip _ _ 20 16 (by norm_num),
      u32At_skip _ _ 16 12 (by norm_num),
      u32At_skip _ _ 12 8 (by norm_num),
      u32At_skip _ _ 8 4 (by norm_num),
      u32At_skip _ _ 4 0 (by norm_num),
      u32At_here _ _ hds]
  · show u32At (d.metadata.name ++ _) (NAME_LEN + 24) = _
    rw [u32At_at _ _ _ 24 (by omega),
      u32At_skip _ _ 24 20 (by norm_num),
      u32At_skip _ _ 20 16 (by norm_num),
      u32At_skip _ _ 16 12 (by norm_num),
      u32At_skip _ _ 12 8 (by norm_num),
      u32At_skip _ _ 8 4 (by norm_num),
      u32At_skip _ _ 4 0 (by norm_num),
      u32At_here _ _ hvp]
  · show u32At (d.metadata.name ++ _) (NAME_LEN + 28) = _
    rw [u32At_at _ _ _ 28 (by omega),
      u32At_skip _ _ 28 24 (by norm_num),
      u32At_skip _ _ 24 20 (by norm_num),
      u32At_skip _ _ 20 16 (by norm_num),
      u32At_skip _ _ 16 12 (by norm_num),
      u32At_skip _ _ 12 8 (by norm_num),
      u32At_skip _ _ 8 4 (by norm_num),
      u32At_skip _ _ 4 0 (by norm_num),
      u32At_last _ hrs]

/-- Well-formedness needed for `DataViewList` serialisation to
round-trip: the count field matches the view count and every numeric
value fits in a u32.  Every list built by the encoder satisfies it. -/
def DataViewList.wf (dvl : DataViewList) : Prop :=
  dvl.size < 2 ^ 32 ∧ dvl.num_views = dvl.views.length ∧
    dvl.num_views < 2 ^ 32 ∧
    ∀ v ∈ dvl.views, v.offset < 2 ^ 32 ∧ v.size < 2 ^ 32

theorem viewBytes_length (views : List DataView) :
    ((views.map fun v => toLE 4 v.offset ++ toLE 4 v.size).flatten).length
      = 8 * views.length := by
  induction views with
  | nil => simp
  | cons v rest ih =>
    simp only [List.map_cons, List.flatten_cons, List.length_append,
      toLE_length, ih, List.length_cons]
    omega

theorem viewsExtract (views : List DataView) :
    ∀ (i : Nat) (hi : i < views.length),
    ∀ (rest : List Nat)
      (hv : ∀ v ∈ views, v.offset < 2 ^ 32 ∧ v.size < 2 ^ 32),
      u32At (((views.map fun v => toLE 4 v.offset ++ toLE 4 v.size).flatten)
          ++ rest) (8 * i)
        = (views.get ⟨i, hi⟩).offset ∧
      u32At (((views.map fun v => toLE 4 v.offset ++ toLE 4 v.size).flatten)
          ++ rest) (8 * i + 4)
        = (views.get ⟨i, hi⟩).size := by
  induction views with
  | nil => intro i hi; simp at hi
  | cons v vrest ih =>
    intro i hi rest hv
    have hvv := hv v (List.mem_cons_self _ _)
    simp only [List.map_cons, List.flatten_cons]
    cases i with
    | zero =>
      constructor
      · rw [List.append_assoc, List.append_assoc, Nat.mul_zero,
          u32At_here _ _ hvv.1]
        rfl
      · rw [List.append_assoc, List.append_assoc, Nat.mul_zero,
          u32At_skip _ _ (0 + 4) 0 (by omega), u32At_here _ _ hvv.2]
        rfl
    | succ j =>
      have hj : j < vrest.length := by
        simp only [List.length_cons] at hi; omega
      have ihj := ih j hj rest
        (fun w hw => hv w (List.mem_cons_of_mem _ hw))
      constructor
      · rw [List.append_assoc,
          u32At_at _ _ _ (8 * j) (by simp [List.length_append]; omega)]
        exact ihj.1
      · rw [List.append_assoc,
          u32At_at _ _ _ (8 * j + 4) (by simp [List.length_append]; omega)]
        exact ihj.2

theorem DataViewList.round_trip (dvl : DataViewList) (h : dvl.wf)
    (rest : List Nat) :
    DataViewList.from_bytes (dvl.to_bytes ++ rest) = .ok dvl := by
  obtain ⟨hsz, hnv, hnvlt, hv⟩ := h
  have hassoc : dvl.to_bytes ++ rest
      = toLE 4 dvl.size ++ (toLE 4 dvl.num_views
        ++ (((dvl.views.map fun v => toLE 4 v.offset ++ toLE 4 v.size).flatten)
          ++ rest)) := by
    simp [DataViewList.to_bytes, List.append_assoc]
  have hnum : u32At (dvl.to_bytes ++ rest) 4 = dvl.num_views := by
    rw [hassoc, u32At_skip _ _ 4 0 (by norm_num), u32At_here _ _ hnvlt]
  have hsize0 : u32At (dvl.to_bytes ++ rest) 0 = dvl.size := by
    rw [hassoc, u32At_here _ _ hsz]
  have hlen : (dvl.to_bytes ++ rest).length
      = 8 + 8 * dvl.views.length + rest.length := by
    simp only [DataViewList.to_bytes, List.append_assoc, List.length_append,
      toLE_length, viewBytes_length]
    omega
  have hcond : 8 + 8 * dvl.num_views ≤ (dvl.to_bytes ++ rest).length := by
    rw [hlen]; omega
  rw [DataViewList.from_bytes, hnum, if_pos hcond, hsize0]
  congr 1
  refine DataViewList.ext rfl rfl ?_
  apply List.ext_getElem
  · simp [hnv]
  · intro i h1 h2
    have hi : i < dvl.views.length := by omega
    have hext := viewsExtract dvl.views i hi rest hv
    simp only [List.getElem_map, List.getElem_range]
    have hoff : u32At (dvl.to_bytes ++ rest) (8 + 8 * i)
        = (dvl.views.get ⟨i, hi⟩).offset := by
      rw [hassoc, u32At_skip _ _ (8 + 8 * i) (4 + 8 * i) (by omega),
        u32At_skip _ _ (4 + 8 * i) (8 * i) (by omega)]
      exact hext.1
    have hsizei : u32At (dvl.to_bytes ++ rest) (8 + 8 * i + 4)
        = (dvl.views.get ⟨i, hi⟩).size := by
      rw [hassoc, u32At_skip _ _ (8 + 8 * i + 4) (4 + (8 * i + 4)) (by omega),
        u32At_skip _ _ (4 + (8 * i + 4)) (8 * i + 4) (by omega)]
      exact hext.2
    rw [hoff, hsizei]
    refine DataView.ext ?_ ?_ <;> simp [List.get_eq_getElem]

/-! ## Structural lemmas about the decode pipeline -/

theorem parseRecords_length (combined descSec viewsSec bufSec : List Nat) :
    ∀ (n p : Nat) (assets : List RawAsset),
      parseRecords combined descSec viewsSec bufSec n p = .ok assets →
      assets.length = n := by
  intro n
  induction n with
  | zero =>
    intro p assets h
    rw [parseRecords] at h
    cases h
    rfl
  | succ n ih =>
    intro p assets h
    rw [parseRecords] at h
    cases hb : bytesAt combined p ASSET_DESCRIPTION_SIZE with
    | none => rw [hb] at h; cases h
    | some chunk =>
      rw [hb] at h
      dsimp only at h
      cases hd : AssetDescription.from_bytes chunk with
      | error e => rw [hd] at h; cases h
      | ok d =>
        rw [hd] at h
        dsimp only at h
        cases hr : decodeRecord descSec viewsSec bufSec d with
        | panicked => rw [hr] at h; cases h
        | err e => rw [hr] at h; cases h
        | ok ra =>
          rw [hr] at h
          dsimp only at h
          cases hrest : parseRecords combined descSec viewsSec bufSec n
              (p + ASSET_DESCRIPTION_SIZE) with
          | ok rest =>
            rw [hrest] at h
            dsimp only at h
            cases h
            simp [ih _ _ hrest]
          | err e => rw [hrest] at h; cases h
          | panicked => rw [hrest] at h; cases h

theorem decodeRecord_chunks_iff (descSec viewsSec bufSec : List Nat)
    (d : AssetDescription) (ra : RawAsset)
    (h : decodeRecord descSec viewsSec bufSec d = .ok ra) :
    (ra.resource_chunks = none ↔ d.resource_size = 0)
      ∧ ra.metadata = d.metadata := by
  rw [decodeRecord] at h
  by_cases h1 : d.descriptor_ptr + d.descriptor_size > descSec.length
  · rw [if_pos h1] at h; cases h
  · rw [if_neg h1] at h
    by_cases h2 : d.resource_size = 0
    · rw [if_pos h2] at h
      cases h
      simp [h2]
    · rw [if_neg h2] at h
      by_cases h3 : d.dataview_list_ptr > viewsSec.length
      · rw [if_pos h3] at h; cases h
      · rw [if_neg h3] at h
        cases hdvl : DataViewList.from_bytes (viewsSec.drop d.dataview_list_ptr) with
        | error e => rw [hdvl] at h; cases h
        | ok dvl =>
          rw [hdvl] at h
          dsimp only at h
          cases hsl : dvl.slices bufSec with
          | error e => rw [hsl] at h; cases h
          | ok sl =>
            rw [hsl] at h
            dsimp only at h
            cases h
            simp [h2]

/-- `BNLFile::from_bytes` written as one equation, for inversion
proofs. -/
theorem from_bytes_eq (inflate : List Nat → Option (List Nat))
    (input : List Nat) :
    BNLFile.from_bytes inflate input =
      if input.length < 40 then .panicked
      else
        match inflate (input.drop 40) with
        | none => .err .DecompressionFailure
        | some d =>
          match readSection (input.take 40 ++ d)
              (parseHeader input).asset_desc_loc with
          | .error e => .err e
          | .ok _ =>
            match readSection (input.take 40 ++ d)
                (parseHeader input).buffer_views_loc with
            | .error e => .err e
            | .ok viewsSec =>
              match readSection (input.take 40 ++ d)
                  (parseHeader input).buffer_loc with
              | .error e => .err e
              | .ok bufSec =>
                match readSection (input.take 40 ++ d)
                    (parseHeader input).descriptor_loc with
                | .error e => .err e
                | .ok descSec =>
                  match parseRecords (input.take 40 ++ d) descSec viewsSec
                      bufSec
                      ((parseHeader input).asset_desc_loc.size
                        / ASSET_DESCRIPTION_SIZE)
                      (parseHeader input).asset_desc_loc.offset with
                  | .panicked => .panicked
                  | .err e => .err e
                  | .ok assets => .ok ⟨parseHeader input, assets⟩ := rfl

theorem from_bytes_ok_inv (inflate : List Nat → Option (List Nat))
    (input : List Nat) (bnl : BNLFile)
    (h : BNLFile.from_bytes inflate input = .ok bnl) :
    40 ≤ input.length ∧ bnl.header = parseHeader input ∧
    ∃ d adSec viewsSec bufSec descSec,
      inflate (input.drop 40) = some d ∧
      readSection (input.take 40 ++ d) (parseHeader input).asset_desc_loc
        = .ok adSec ∧
      readSection (input.take 40 ++ d) (parseHeader input).buffer_views_loc
        = .ok viewsSec ∧
      readSection (input.take 40 ++ d) (parseHeader input).buffer_loc
        = .ok bufSec ∧
      readSection (input.take 40 ++ d) (parseHeader input).descriptor_loc
        = .ok descSec ∧
      parseRecords (input.take 40 ++ d) descSec viewsSec bufSec
        ((parseHeader input).asset_desc_loc.size / ASSET_DESCRIPTION_SIZE)
        (parseHeader input).asset_desc_loc.offset = .ok bnl.assets := by
  rw [from_bytes_eq] at h
  by_cases hlt : input.length < 40
  · rw [if_pos hlt] at h; cases h
  · rw [if_neg hlt] at h
    refine ⟨by omega, ?_⟩
    cases hinf : inflate (input.drop 40) with
    | none => rw [hinf] at h; cases h
    | some d =>
      rw [hinf] at h
      dsimp only at h
      cases h1 : readSection (input.take 40 ++ d)
          (parseHeader input).asset_desc_loc with
      | error e => rw [h1] at h; cases h
      | ok adSec =>
        rw [h1] at h
        dsimp only at h
        cases h2 : readSection (input.take 40 ++ d)
            (parseHeader input).buffer_views_loc with
        | error e => rw [h2] at h; cases h
        | ok viewsSec =>
          rw [h2] at h
          dsimp only at h
          cases h3 : readSection (input.take 40 ++ d)
              (parseHeader input).buffer_loc with
          | error e => rw [h3] at h; cases h
          | ok bufSec =>
            rw [h3] at h
            dsimp only at h
            cases h4 : readSection (input.take 40 ++ d)
                (parseHeader input).descriptor_loc with
            | error e => rw [h4] at h; cases h
            | ok descSec =>
              rw [h4] at h
              dsimp only at h
              cases h5 : parseRecords (input.take 40 ++ d) descSec viewsSec
                  bufSec
                  ((parseHeader input).asset_desc_loc.size
                    / ASSET_DESCRIPTION_SIZE)
                  (parseHeader input).asset_desc_loc.offset with
              | panicked => rw [h5] at h; cases h
              | err e => rw [h5] at h; cases h
              | ok assets =>
                rw [h5] at h
                dsimp only at h
                cases h
                exact ⟨rfl, d, adSec, viewsSec, bufSec, descSec,
                  rfl, h1, h2, h3, h4, h5⟩

/-! ## Claim theorems -/

/-- C4 (code bug exhibit): `BNLFile::from_bytes` does not return a
`BNLError` on every malformed input — on any input shorter than 40
bytes (here the empty input) its very first statement
`bnl_bytes[..40].to_vec()` is an out-of-range slice index and the
function panics, whatever the compression primitive does. -/
theorem from_bytes_panics_on_short_input :
    ∀ inflate : List Nat → Option (List Nat),
      BNLFile.from_bytes inflate [] = .panicked := by
  intro inflate
  rw [from_bytes_eq]
  rfl

/-- The 40-byte input of the C5 counterexample: `file_count = 5`, all
four section locations `(offset 40, size 0)`. -/
def c5Input : List Nat :=
  [5, 0, 0, 0, 0, 0, 0, 0] ++ toLE 4 40 ++ toLE 4 0 ++ toLE 4 40 ++ toLE 4 0
    ++ toLE 4 40 ++ toLE 4 0 ++ toLE 4 40 ++ toLE 4 0

/-- C5 (counterexample): an archive whose header says `file_count = 5`
but whose asset-description section is empty decodes successfully with
zero assets — `from_bytes` does not read `file_count` records. -/
theorem record_count_ignores_file_count_cx :
    BNLFile.from_bytes (fun _ => some []) c5Input
        = .ok ⟨parseHeader c5Input, []⟩ ∧
      (parseHeader c5Input).file_count = 5 ∧
      ([] : List RawAsset).length ≠ (parseHeader c5Input).file_count := by
  refine ⟨by decide, by decide, by decide⟩

/-- C5 (amended): for every successfully decoded archive, the number of
decoded assets equals `asset_desc_loc.size / ASSET_DESCRIPTION_SIZE` —
the sequential record count is derived from the section size recorded
in the header, not from the header's `file_count` field. -/
theorem record_count_from_section_size
    (inflate : List Nat → Option (List Nat)) (input : List Nat)
    (bnl : BNLFile) (h : BNLFile.from_bytes inflate input = .ok bnl) :
    bnl.assets.length
      = bnl.header.asset_desc_loc.size / ASSET_DESCRIPTION_SIZE := by
  obtain ⟨-, hh, d, adSec, viewsSec, bufSec, descSec, -, -, -, -, -, hp⟩ :=
    from_bytes_ok_inv _ _ _ h
  rw [hh]
  exact parseRecords_length _ _ _ _ _ _ _ hp

theorem record_count_from_section_size_witness :
    BNLFile.from_bytes (fun _ => some []) c5Input
        = .ok ⟨parseHeader c5Input, []⟩ ∧
      (⟨parseHeader c5Input, []⟩ : BNLFile).assets.length
        = (⟨parseHeader c5Input, []⟩ : BNLFile).header.asset_desc_loc.size
          / ASSET_DESCRIPTION_SIZE :=
  ⟨by decide,
    record_count_from_section_size (fun _ => some []) c5Input _ (by decide)⟩

/-- C8: in the record-decoding step of `BNLFile::from_bytes`, an
`AssetDescription` with `resource_size == 0` yields a `RawAsset` whose
`resource_chunks` is `None` (and conversely, a nonzero `resource_size`
never yields `None`); and `AidList::get_resource_chunks` returns `None`
for every `AidList` value, never `Some(vec![])`. -/
theorem empty_resource_decodes_to_none :
    (∀ (descSec viewsSec bufSec : List Nat) (d : AssetDescription)
        (ra : RawAsset),
      decodeRecord descSec viewsSec bufSec d = .ok ra →
      (ra.resource_chunks = none ↔ d.resource_size = 0)) ∧
    (∀ al : AidList, al.get_resource_chunks = none) := by
  constructor
  · intro _ _ _ d ra h
    exact (decodeRecord_chunks_iff _ _ _ _ _ h).1
  · intro al
    rfl

theorem empty_resource_decodes_to_none_witness :
    decodeRecord [] [] [] (descriptionOfMetadata ⟨[], 0, 0, 0⟩)
        = .ok ⟨⟨[], 0, 0, 0⟩, [], none⟩ ∧
      ((⟨⟨[], 0, 0, 0⟩, [], none⟩ : RawAsset).resource_chunks = none
        ↔ (descriptionOfMetadata ⟨[], 0, 0, 0⟩).resource_size = 0) :=
  ⟨by decide,
    empty_resource_decodes_to_none.1 [] [] [] _ _ (by decide)⟩

/-- C9 (counterexample): on a name buffer that is not valid UTF-8 — the
single byte `0xFF` — `AssetMetadata::name()` returns the empty string,
not the bytes before the first NUL. -/
theorem name_not_nul_prefix_cx :
    AssetMetadata.nameStr ⟨[255], 0, 0, 0⟩
      ≠ ([255] : List Nat).takeWhile (fun b => b != 0) := by
  decide

/-- C9 (amended): whenever the fixed-width name buffer is valid UTF-8,
`name()` returns exactly the prefix of the buffer up to (and excluding)
the first NUL byte — the whole buffer when no NUL is present; when the
buffer is not valid UTF-8 the accessor falls back to the empty
string. -/
theorem name_nul_prefix_of_valid_utf8 (m : AssetMetadata) :
    (utf8Valid m.name = true →
      m.nameStr = m.name.takeWhile (fun b => b != 0)) ∧
    (utf8Valid m.name = false → m.nameStr = []) := by
  constructor
  · intro h
    unfold AssetMetadata.nameStr nameBytes strFromUtf8
    rw [if_pos h]
    exact splitOn_zero_headD m.name
  · intro h
    unfold AssetMetadata.nameStr nameBytes strFromUtf8
    rw [if_neg (by simp [h])]

theorem name_nul_prefix_of_valid_utf8_witness :
    utf8Valid [97, 98, 0, 99] = true ∧
      AssetMetadata.nameStr ⟨[97, 98, 0, 99], 0, 0, 0⟩ = [97, 98] := by
  refine ⟨by decide, ?_⟩
  rw [(name_nul_prefix_of_valid_utf8 ⟨[97, 98, 0, 99], 0, 0, 0⟩).1 (by decide)]
  decide

/-- C6: when the archive holds an asset with the requested name whose
recorded type code differs from the requested codec's, both
`get_asset` and `RawAsset::to_asset` fail with `TypeMismatch` — and
they do so for every possible descriptor parser (the statement
quantifies over all codec operations), so descriptor parsing is never
attempted on a type-mismatched asset. -/
theorem type_mismatch_before_descriptor_parse :
    ∀ (D A : Type) (c : AssetCodec D A) (bnl : BNLFile) (nm : List Nat)
      (ra : RawAsset),
      bnl.get_raw_asset nm = some ra →
      ra.metadata.asset_type ≠ c.asset_type →
      bnl.get_asset c nm = .error .TypeMismatch ∧
        ra.to_asset c = .error .TypeMismatch := by
  intro D A c bnl nm ra hfind hne
  constructor
  · unfold BNLFile.get_asset
    rw [hfind]
    dsimp only
    rw [if_pos hne]
  · unfold RawAsset.to_asset
    rw [if_pos hne]

/-- Witness data for C6: a codec whose descriptor parser always fails
with `ParseError`, an asset whose recorded type code (1) differs from
the codec's (2). -/
def c6Codec : AssetCodec Unit Unit :=
  ⟨2, fun _ => .error .ParseError, fun _ => .ok [],
    fun _ _ => .error .ParseError, fun _ => (), fun _ => none⟩

def c6Asset : RawAsset := ⟨⟨[97], 1, 0, 0⟩, [5], none⟩

def c6Bnl : BNLFile :=
  ⟨⟨0, 0, [0, 0, 0, 0, 0], ⟨0, 0⟩, ⟨0, 0⟩, ⟨0, 0⟩, ⟨0, 0⟩⟩, [c6Asset]⟩

theorem type_mismatch_before_descriptor_parse_witness :
    c6Bnl.get_raw_asset [97] = some c6Asset ∧
      c6Asset.metadata.asset_type ≠ c6Codec.asset_type ∧
      c6Bnl.get_asset c6Codec [97] = .error .TypeMismatch ∧
      c6Asset.to_asset c6Codec = .error .TypeMismatch := by
  have h := type_mismatch_before_descriptor_parse Unit Unit c6Codec c6Bnl
    [97] c6Asset (by decide) (by decide)
  exact ⟨by decide, by decide, h.1, h.2⟩

/-- C2: for every `VirtualResource` built from slices whose in-order
concatenation is `C`, and every in-bounds request
`start + len ≤ C.length`, `get_bytes` succeeds with exactly the bytes
`C[start..start+len]`, an owned buffer of exactly `len` bytes —
covering reads inside one slice, spanning slices, and starting or
ending mid-slice. -/
theorem get_bytes_window_exact (slices : List (List Nat))
    (start size : Nat) (h : start + size ≤ slices.flatten.length) :
    (VirtualResource.from_slices slices).get_bytes start size
        = .ok ((slices.flatten.drop start).take size) ∧
      ((slices.flatten.drop start).take size).length = size := by
  refine ⟨VirtualResource.get_bytes_spec slices start size h, ?_⟩
  rw [List.length_take, List.length_drop]
  omega

/-- Witness data for C2: the literal scenario of the source test
`read_across_slices` (src/lib.rs lines 1252-1268): a 1000-byte
sequential source, four 100-byte slices at offsets 0/200/400/600. -/
def testData : List Nat := (List.range 1000).map (· % 256)

def testSlices : List (List Nat) :=
  [testData.take 100, (testData.drop 200).take 100,
    (testData.drop 400).take 100, (testData.drop 600).take 100]

set_option maxRecDepth 40000 in
theorem get_bytes_window_exact_witness :
    180 + 200 ≤ testSlices.flatten.length ∧
      (VirtualResource.from_slices testSlices).get_bytes 180 200
        = .ok ((testData.drop 280).take 20 ++ ((testData.drop 400).take 100
            ++ (testData.drop 600).take 80)) := by
  have hle : 180 + 200 ≤ testSlices.flatten.length := by decide
  refine ⟨hle, ?_⟩
  rw [(get_bytes_window_exact testSlices 180 200 hle).1]
  decide

/-- C3: out-of-bounds `get_bytes` requests fail with the matching typed
error and never panic (`OffsetOutOfBounds` when the start exceeds the
total length, `SizeOutOfBounds` when the remainder is shorter than the
request); and resolving a `DataViewList` against a buffer pool
(`VirtualResource::from_dvl` / `DataViewList::slices`) fails with the
distinguishable `OffsetOutOfBounds` for the first view whose offset
lies beyond the pool, and `SizeOutOfBounds` for the first view whose
size would run past the end. -/
theorem oob_requests_typed_errors :
    (∀ (vr : VirtualResource) (start size : Nat),
        vr.len < start →
        vr.get_bytes start size = .err .OffsetOutOfBounds) ∧
    (∀ (vr : VirtualResource) (start size : Nat),
        start ≤ vr.len → vr.len - start < size →
        vr.get_bytes start size = .err .SizeOutOfBounds) ∧
    (∀ (vr : VirtualResource) (start size : Nat),
        vr.get_bytes start size ≠ .panicked) ∧
    (∀ (pool : List Nat) (dvl : DataViewList) (v : DataView)
        (pre rest : List DataView),
        dvl.views = pre ++ v :: rest →
        (∀ w ∈ pre, w.offset ≤ pool.length ∧ w.size ≤ pool.length - w.offset) →
        (v.offset > pool.length →
          dvl.slices pool = .error .OffsetOutOfBounds ∧
            VirtualResource.from_dvl dvl.views pool
              = .error .OffsetOutOfBounds) ∧
        (v.offset ≤ pool.length → pool.length - v.offset < v.size →
          dvl.slices pool = .error .SizeOutOfBounds ∧
            VirtualResource.from_dvl dvl.views pool
              = .error .SizeOutOfBounds)) := by
  refine ⟨VirtualResource.get_bytes_offset_oob,
    VirtualResource.get_bytes_size_oob,
    VirtualResource.get_bytes_no_panic, ?_⟩
  intro pool dvl v pre rest hviews hpre
  constructor
  · intro hv
    have h := VirtualResource.from_dvl_offset_oob pool v hv pre rest hpre
    rw [← hviews] at h
    exact ⟨h, h⟩
  · intro hv1 hv2
    have h := VirtualResource.from_dvl_size_oob pool v hv1 hv2 pre rest hpre
    rw [← hviews] at h
    exact ⟨h, h⟩

theorem oob_requests_typed_errors_witness :
    (VirtualResource.from_slices [[1, 2]]).get_bytes 5 0
        = .err .OffsetOutOfBounds ∧
      (VirtualResource.from_slices [[1, 2]]).get_bytes 1 5
        = .err .SizeOutOfBounds ∧
      (DataViewList.mk 16 1 [⟨9, 1⟩]).slices [1, 2, 3]
        = .error .OffsetOutOfBounds ∧
      (DataViewList.mk 16 1 [⟨1, 7⟩]).slices [1, 2, 3]
        = .error .SizeOutOfBounds := by
  refine ⟨oob_requests_typed_errors.1 _ 5 0 (by decide),
    oob_requests_typed_errors.2.1 _ 1 5 (by decide) (by decide),
    (((oob_requests_typed_errors.2.2.2 [1, 2, 3] ⟨16, 1, [⟨9, 1⟩]⟩ ⟨9, 1⟩
        [] [] rfl (by simp)).1) (by decide)).1,
    (((oob_requests_typed_errors.2.2.2 [1, 2, 3] ⟨16, 1, [⟨1, 7⟩]⟩ ⟨1, 7⟩
        [] [] rfl (by simp)).2) (by decide) (by decide)).1⟩

/-! ## `modify_asset` lemmas (C7) -/

theorem modifyAssetList_cons {D A : Type} (c : AssetCodec D A)
    (f : Asset A → Except AssetError (Asset A)) (name : List Nat)
    (ra : RawAsset) (rest : List RawAsset) :
    modifyAssetList c f name (ra :: rest) =
      if ra.metadata.nameStr == name then
        match ra.to_asset c with
        | .error e => (.error e, ra :: rest)
        | .ok a0 =>
          match f a0 with
          | .error e => (.error e, ra :: rest)
          | .ok a1 =>
            match a1.to_raw_asset c with
            | .error e => (.error e, ra :: rest)
            | .ok ra1 => (.ok (), ra1 :: rest)
      else
        ((modifyAssetList c f name rest).1,
          ra :: (modifyAssetList c f name rest).2) := rfl

theorem modifyAssetList_err {D A : Type} (c : AssetCodec D A)
    (f : Asset A → Except AssetError (Asset A)) (name : List Nat) :
    ∀ (l : List RawAsset) (e : AssetError),
      (modifyAssetList c f name l).1 = .error e →
      (modifyAssetList c f name l).2 = l := by
  intro l
  induction l with
  | nil => intro e _; rfl
  | cons ra rest ih =>
    intro e h
    rw [modifyAssetList_cons] at h ⊢
    by_cases hn : ra.metadata.nameStr == name
    · rw [if_pos hn] at h ⊢
      cases h0 : ra.to_asset c with
      | error e0 => rfl
      | ok a0 =>
        rw [h0] at h
        dsimp only at h ⊢
        cases h1 : f a0 with
        | error e1 => rfl
        | ok a1 =>
          rw [h1] at h
          dsimp only at h ⊢
          cases h2 : a1.to_raw_asset c with
          | error e2 => rfl
          | ok ra1 =>
            rw [h2] at h
            dsimp only at h
            cases h
    · rw [if_neg hn] at h ⊢
      dsimp only at h ⊢
      rw [ih e h]

theorem modifyAssetList_ok {D A : Type} (c : AssetCodec D A)
    (f : Asset A → Except AssetError (Asset A)) (name : List Nat) :
    ∀ l : List RawAsset,
      (modifyAssetList c f name l).1 = .ok () →
      ∃ (i : Nat) (ra : RawAsset) (a0 a1 : Asset A) (ra1 : RawAsset),
        l[i]? = some ra ∧
        (∀ j, j < i → ∀ ra2, l[j]? = some ra2 →
          ra2.metadata.nameStr ≠ name) ∧
        ra.metadata.nameStr = name ∧
        ra.to_asset c = .ok a0 ∧ f a0 = .ok a1 ∧
        a1.to_raw_asset c = .ok ra1 ∧
        (modifyAssetList c f name l).2 = l.set i ra1 := by
  intro l
  induction l with
  | nil => intro h; simp [modifyAssetList] at h
  | cons ra rest ih =>
    intro h
    rw [modifyAssetList_cons] at h ⊢
    by_cases hn : ra.metadata.nameStr == name
    · rw [if_pos hn] at h ⊢
      cases h0 : ra.to_asset c with
      | error e0 => rw [h0] at h; dsimp only at h; cases h
      | ok a0 =>
        rw [h0] at h
        dsimp only at h ⊢
        cases h1 : f a0 with
        | error e1 => rw [h1] at h; dsimp only at h; cases h
        | ok a1 =>
          rw [h1] at h
          dsimp only at h ⊢
          cases h2 : a1.to_raw_asset c with
          | error e2 => rw [h2] at h; dsimp only at h; cases h
          | ok ra1 =>
            refine ⟨0, ra, a0, a1, ra1, by simp, ?_, eq_of_beq hn, h0, h1,
              h2, rfl⟩
            intro j hj
            omega
    · rw [if_neg hn] at h ⊢
      dsimp only at h ⊢
      obtain ⟨i, ra', a0, a1, ra1, hget, hprev, hname, h0, h1, h2, hset⟩ :=
        ih h
      refine ⟨i + 1, ra', a0, a1, ra1, by simpa using hget, ?_, hname, h0,
        h1, h2, ?_⟩
      · intro j hj ra2 hra2
        cases j with
        | zero =>
          simp only [List.getElem?_cons_zero, Option.some.injEq] at hra2
          subst hra2
          intro hEq
          exact hn (by simp [hEq])
        | succ j0 =>
          apply hprev j0 (by omega)
          simpa using hra2
      · rw [hset]
        rfl

/-- C7: `modify_asset` is atomic and correct: whenever it returns an
error (name absent, type mismatch, decode failure, the closure
failing, or re-encode failure) the archive is left completely
unchanged; and whenever it returns success, exactly the first asset
with the requested name has been replaced in place (same position,
length unchanged) by the re-encoding of the closure's output — so
that, under the spec §4.3 round-trip contract for the codec (`hrt`)
and for a closure that keeps the recorded type tag, decoding the
replaced entry as `T` yields exactly the value `f` produced from the
originally decoded value. -/
theorem modify_asset_atomic_correct (D A : Type) (c : AssetCodec D A)
    (f : Asset A → Except AssetError (Asset A)) (bnl : BNLFile)
    (nm : List Nat)
    (hrt : ∀ a : Asset A, a.metadata.asset_type = c.asset_type →
      ∀ ra, a.to_raw_asset c = .ok ra → ra.to_asset c = .ok a) :
    (∀ e, (bnl.modify_asset c f nm).1 = .error e →
      (bnl.modify_asset c f nm).2 = bnl) ∧
    ((bnl.modify_asset c f nm).1 = .ok () →
      ∃ (i : Nat) (ra : RawAsset) (a0 a1 : Asset A) (ra1 : RawAsset),
        bnl.assets[i]? = some ra ∧
        (∀ j, j < i → ∀ ra2, bnl.assets[j]? = some ra2 →
          ra2.metadata.nameStr ≠ nm) ∧
        ra.metadata.nameStr = nm ∧
        ra.to_asset c = .ok a0 ∧ f a0 = .ok a1 ∧
        a1.to_raw_asset c = .ok ra1 ∧
        (bnl.modify_asset c f nm).2.assets = bnl.assets.set i ra1 ∧
        (bnl.modify_asset c f nm).2.assets.length = bnl.assets.length ∧
        (a1.metadata.asset_type = c.asset_type →
          ra1.to_asset c = .ok a1)) := by
  constructor
  · intro e he
    show (⟨bnl.header, (modifyAssetList c f nm bnl.assets).2⟩ : BNLFile) = bnl
    rw [modifyAssetList_err c f nm bnl.assets e he]
  · intro hok
    obtain ⟨i, ra, a0, a1, ra1, hget, hprev, hname, h0, h1, h2, hset⟩ :=
      modifyAssetList_ok c f nm bnl.assets hok
    refine ⟨i, ra, a0, a1, ra1, hget, hprev, hname, h0, h1, h2, hset, ?_,
      fun hty => hrt a1 hty ra1 h2⟩
    show (modifyAssetList c f nm bnl.assets).2.length = bnl.assets.length
    rw [hset, List.length_set]

/-- Witness data for C7: an identity codec over byte-list descriptors
(type code 7), a single-asset archive and a closure appending a byte to
the payload. -/
def c7Codec : AssetCodec (List Nat) (List Nat) :=
  ⟨7, fun b => .ok b, fun d => .ok d, fun d _ => .ok d, id, fun _ => none⟩

def c7Asset : RawAsset := ⟨⟨[120], 7, 0, 0⟩, [1, 2], none⟩

def c7Bnl : BNLFile :=
  ⟨⟨0, 0, [0, 0, 0, 0, 0], ⟨0, 0⟩, ⟨0, 0⟩, ⟨0, 0⟩, ⟨0, 0⟩⟩, [c7Asset]⟩

def c7f : Asset (List Nat) → Except AssetError (Asset (List Nat)) :=
  fun a => .ok ⟨a.metadata, a.asset ++ [3]⟩

theorem c7_roundtrip : ∀ a : Asset (List Nat),
    a.metadata.asset_type = c7Codec.asset_type →
    ∀ ra, a.to_raw_asset c7Codec = .ok ra →
      ra.to_asset c7Codec = .ok a := by
  intro a ha ra hra
  cases a with
  | mk m x =>
    simp only [Asset.to_raw_asset, c7Codec] at hra
    cases hra
    simp only [RawAsset.to_asset, c7Codec] at ha ⊢
    rw [if_neg (by simp [ha])]
    rfl

theorem modify_asset_atomic_correct_witness :
    (c7Bnl.modify_asset c7Codec c7f [120]).1 = .ok () ∧
      ∃ (i : Nat) (ra : RawAsset) (a0 a1 : Asset (List Nat))
        (ra1 : RawAsset),
        c7Bnl.assets[i]? = some ra ∧
        (∀ j, j < i → ∀ ra2, c7Bnl.assets[j]? = some ra2 →
          ra2.metadata.nameStr ≠ [120]) ∧
        ra.metadata.nameStr = [120] ∧
        ra.to_asset c7Codec = .ok a0 ∧ c7f a0 = .ok a1 ∧
        a1.to_raw_asset c7Codec = .ok ra1 ∧
        (c7Bnl.modify_asset c7Codec c7f [120]).2.assets
          = c7Bnl.assets.set i ra1 ∧
        (c7Bnl.modify_asset c7Codec c7f [120]).2.assets.length
          = c7Bnl.assets.length ∧
        (a1.metadata.asset_type = c7Codec.asset_type →
          ra1.to_asset c7Codec = .ok a1) :=
  ⟨rfl,
    (modify_asset_atomic_correct (List Nat) (List Nat) c7Codec c7f c7Bnl
      [120] c7_roundtrip).2 rfl⟩

/-! ## Characterisation of the encode loop (`BNLFile::to_bytes`) -/

/-- The `DataView`s recorded while appending `chunks` to a buffer
section whose current length is `base` (the fold inside `encodeStep`):
each view's offset is the pre-append section length `as u32`, its size
the chunk length `as u32`. -/
def chunkViews (base : Nat) : List (List Nat) → List DataView
  | [] => []
  | c :: rest =>
    ⟨base % 2 ^ 32, c.length % 2 ^ 32⟩ :: chunkViews (base + c.length) rest

theorem chunkViews_length (chunks : List (List Nat)) :
    ∀ base, (chunkViews base chunks).length = chunks.length := by
  induction chunks with
  | nil => intro base; rfl
  | cons c rest ih =>
    intro base
    simp [chunkViews, ih]

theorem chunkFold (chunks : List (List Nat)) :
    ∀ (vs : List DataView) (buf : List Nat),
      chunks.foldl (fun (pr : List DataView × List Nat) c =>
        (pr.1 ++ [⟨pr.2.length % 2 ^ 32, c.length % 2 ^ 32⟩], pr.2 ++ c))
        (vs, buf)
      = (vs ++ chunkViews buf.length chunks, buf ++ chunks.flatten) := by
  induction chunks with
  | nil => intro vs buf; simp [chunkViews]
  | cons c rest ih =>
    intro vs buf
    simp only [List.foldl_cons, chunkViews]
    rw [ih]
    simp [List.append_assoc, List.length_append]

/-- The `AssetDescription` record that one iteration of the encode loop
serialises, given the buffer-views and descriptor section lengths at
that point. -/
def recordOf (a : RawAsset) (vLen dLen : Nat) : AssetDescription :=
  match a.resource_chunks with
  | none =>
    { descriptionOfMetadata a.metadata with
        descriptor_ptr := dLen % 2 ^ 32,
        descriptor_size := a.descriptor_bytes.length % 2 ^ 32 }
  | some chunks =>
    { descriptionOfMetadata a.metadata with
        dataview_list_ptr := vLen % 2 ^ 32,
        resource_size := (8 + 8 * chunks.length) % 2 ^ 32,
        descriptor_ptr := dLen % 2 ^ 32,
        descriptor_size := a.descriptor_bytes.length % 2 ^ 32 }

/-- The bytes one iteration appends to the buffer-views section. -/
def dvlBytesOf (a : RawAsset) (bLen : Nat) : List Nat :=
  match a.resource_chunks with
  | none => []
  | some chunks =>
    (DataViewList.mk ((8 + 8 * chunks.length) % 2 ^ 32)
      (chunks.length % 2 ^ 32) (chunkViews bLen chunks)).to_bytes

/-- The bytes one iteration appends to the buffer section. -/
def bufBytesOf (a : RawAsset) : List Nat :=
  match a.resource_chunks with
  | none => []
  | some chunks => chunks.flatten

theorem encodeStep_eq (s : Sections) (a : RawAsset) :
    encodeStep s a =
      ⟨s.descSec
          ++ (recordOf a s.viewsSec.length s.descrSec.length).to_bytes,
        s.viewsSec ++ dvlBytesOf a s.bufSec.length,
        s.bufSec ++ bufBytesOf a,
        s.descrSec ++ a.descriptor_bytes⟩ := by
  cases hc : a.resource_chunks with
  | none => simp [encodeStep, hc, recordOf, dvlBytesOf, bufBytesOf]
  | some chunks =>
    simp only [encodeStep, hc, recordOf, dvlBytesOf, bufBytesOf]
    rw [chunkFold]
    simp only [List.nil_append, DataViewList.bytes_required,
      chunkViews_length]

/-- The four section byte blocks produced by encoding `l` when the
buffer-views, buffer and descriptor sections already hold `vLen`,
`bLen`, `dLen` bytes. -/
def buildRest : List RawAsset → Nat → Nat → Nat → Sections
  | [], _, _, _ => ⟨[], [], [], []⟩
  | a :: rest, vLen, bLen, dLen =>
    let r := buildRest rest (vLen + (dvlBytesOf a bLen).length)
      (bLen + (bufBytesOf a).length) (dLen + a.descriptor_bytes.length)
    ⟨(recordOf a vLen dLen).to_bytes ++ r.descSec,
      dvlBytesOf a bLen ++ r.viewsSec,
      bufBytesOf a ++ r.bufSec,
      a.descriptor_bytes ++ r.descrSec⟩

theorem foldl_encode (l : List RawAsset) :
    ∀ s : Sections,
      l.foldl encodeStep s =
        ⟨s.descSec ++ (buildRest l s.viewsSec.length s.bufSec.length
            s.descrSec.length).descSec,
          s.viewsSec ++ (buildRest l s.viewsSec.length s.bufSec.length
            s.descrSec.length).viewsSec,
          s.bufSec ++ (buildRest l s.viewsSec.length s.bufSec.length
            s.descrSec.length).bufSec,
          s.descrSec ++ (buildRest l s.viewsSec.length s.bufSec.length
            s.descrSec.length).descrSec⟩ := by
  induction l with
  | nil =>
    intro s
    simp only [List.foldl_nil, buildRest, List.append_nil]
  | cons a rest ih =>
    intro s
    rw [List.foldl_cons, encodeStep_eq, ih]
    simp only [buildRest, List.length_append, List.append_assoc]

theorem u32At_here_mod (v : Nat) (rest : List Nat) :
    u32At (toLE 4 v ++ rest) 0 = v % 2 ^ 32 := by
  unfold u32At
  rw [List.drop_zero, List.take_left' (toLE_length 4 v), fromLE_toLE,
    show (256 : Nat) ^ 4 = 2 ^ 32 by norm_num]

theorem AssetDescription.to_bytes_assoc (d : AssetDescription) :
    d.to_bytes = (d.metadata.name.take NAME_LEN
        ++ List.replicate (NAME_LEN - d.metadata.name.length) 0)
      ++ (toLE 4 d.metadata.asset_type ++ (toLE 4 d.metadata.unk_1
      ++ (toLE 4 d.metadata.unk_2 ++ (toLE 4 d.chunk_count
      ++ (toLE 4 d.descriptor_ptr ++ (toLE 4 d.descriptor_size
      ++ (toLE 4 d.dataview_list_ptr ++ toLE 4 d.resource_size))))))) := by
  simp only [AssetDescription.to_bytes, List.append_assoc]

/-- Decoding any encoded record recovers `chunk_count` (mod u32),
independently of any well-formedness of the record. -/
theorem from_bytes_to_bytes_chunk_count (d : AssetDescription) :
    ∃ d2, AssetDescription.from_bytes d.to_bytes = .ok d2 ∧
      d2.chunk_count = d.chunk_count % 2 ^ 32 := by
  rw [AssetDescription.from_bytes,
    if_pos (AssetDescription.to_bytes_length d)]
  refine ⟨_, rfl, ?_⟩
  show u32At d.to_bytes (NAME_LEN + 12) = _
  have hnlen : (d.metadata.name.take NAME_LEN
      ++ List.replicate (NAME_LEN - d.metadata.name.length) 0).length
      = NAME_LEN := by
    rw [List.length_append, List.length_take, List.length_replicate,
      NAME_LEN]
    omega
  rw [AssetDescription.to_bytes_assoc,
    u32At_at _ _ _ 12 (by rw [hnlen]),
    u32At_skip _ _ 12 8 (by norm_num),
    u32At_skip _ _ 8 4 (by norm_num),
    u32At_skip _ _ 4 0 (by norm_num),
    u32At_here_mod]

/-- Each `ASSET_DESCRIPTION_SIZE`-byte slot of the rebuilt
asset-description section is the serialisation of the record built for
the corresponding asset. -/
theorem buildRest_slot (l : List RawAsset) :
    ∀ (vLen bLen dLen i : Nat), i < l.length →
      ∃ (a : RawAsset) (vL dL : Nat),
        ((buildRest l vLen bLen dLen).descSec.drop
          (i * ASSET_DESCRIPTION_SIZE)).take ASSET_DESCRIPTION_SIZE
          = (recordOf a vL dL).to_bytes := by
  induction l with
  | nil => intro _ _ _ i hi; simp at hi
  | cons a rest ih =>
    intro vLen bLen dLen i hi
    cases i with
    | zero =>
      refine ⟨a, vLen, dLen, ?_⟩
      simp only [buildRest, Nat.zero_mul, List.drop_zero]
      exact List.take_left' (AssetDescription.to_bytes_length _)
    | succ j =>
      obtain ⟨a2, vL, dL, he⟩ := ih (vLen + (dvlBytesOf a bLen).length)
        (bLen + (bufBytesOf a).length) (dLen + a.descriptor_bytes.length)
        j (by simpa using hi)
      refine ⟨a2, vL, dL, ?_⟩
      simp only [buildRest]
      rw [show (j + 1) * ASSET_DESCRIPTION_SIZE
          = ((recordOf a vLen dLen).to_bytes).length
            + j * ASSET_DESCRIPTION_SIZE by
        rw [AssetDescription.to_bytes_length]; ring, List.drop_append]
      exact he

/-- C10: every fixed-size `AssetDescription` record that
`BNLFile::to_bytes` writes into the asset-description section carries
`chunk_count == 2`, regardless of how many resource chunks the asset
actually has (including assets with no resource payload), because the
record is rebuilt from `AssetMetadata` via a conversion that hard-codes
`chunk_count: 2`; consequently an input archive's `chunk_count` values
are not preserved across a decode/encode round trip. -/
theorem encoded_records_chunk_count_two (bnl : BNLFile) (i : Nat)
    (hi : i < bnl.assets.length) :
    ∃ d : AssetDescription,
      AssetDescription.from_bytes
        ((((bnl.assets.foldl encodeStep ⟨[], [], [], []⟩).descSec).drop
          (i * ASSET_DESCRIPTION_SIZE)).take ASSET_DESCRIPTION_SIZE)
        = .ok d ∧ d.chunk_count = 2 := by
  rw [foldl_encode]
  dsimp only
  simp only [List.nil_append, List.length_nil]
  obtain ⟨a, vL, dL, he⟩ := buildRest_slot bnl.assets 0 0 0 i hi
  rw [he]
  obtain ⟨d2, hd2, hcc⟩ := from_bytes_to_bytes_chunk_count (recordOf a vL dL)
  refine ⟨d2, hd2, ?_⟩
  rw [hcc]
  cases hc : a.resource_chunks <;>
    simp [recordOf, hc, descriptionOfMetadata]

/-- Witness data for C10: a one-asset archive whose asset has two
resource chunks (so its true chunk count is 2 only by accident of the
hard-coded constant; a second archive with no chunks is also
covered by the theorem). -/
def c10Bnl : BNLFile :=
  ⟨⟨0, 0, [0, 0, 0, 0, 0], ⟨0, 0⟩, ⟨0, 0⟩, ⟨0, 0⟩, ⟨0, 0⟩⟩,
    [⟨⟨[97], 1, 2, 3⟩, [9], some [[7, 8], [5]]⟩]⟩

theorem encoded_records_chunk_count_two_witness :
    0 < c10Bnl.assets.length ∧
      ∃ d : AssetDescription,
        AssetDescription.from_bytes
          ((((c10Bnl.assets.foldl encodeStep ⟨[], [], [], []⟩).descSec).drop
            (0 * ASSET_DESCRIPTION_SIZE)).take ASSET_DESCRIPTION_SIZE)
          = .ok d ∧ d.chunk_count = 2 :=
  ⟨by decide, encoded_records_chunk_count_two c10Bnl 0 (by decide)⟩

/-! ## Decode-of-encode: supporting lemmas (C1) -/

theorem bytesAt_exact (pre mid post : List Nat) (n : Nat)
    (hn : mid.length = n) :
    bytesAt (pre ++ (mid ++ post)) pre.length n = some mid := by
  unfold bytesAt
  have hle : pre.length + n ≤ (pre ++ (mid ++ post)).length := by
    simp [List.length_append]
    omega
  rw [if_pos hle, List.drop_left, List.take_left' hn]

theorem readSection_exact (pre mid post : List Nat) (loc : DataView)
    (ho : loc.offset = pre.length) (hs : loc.size = mid.length) :
    readSection (pre ++ (mid ++ post)) loc = .ok mid := by
  unfold readSection
  by_cases h0 : loc.size = 0
  · rw [if_pos h0]
    have : mid = [] := by
      rw [← List.length_eq_zero, ← hs, h0]
    rw [this]
  · rw [if_neg h0]
    have hle : loc.offset + loc.size ≤ (pre ++ (mid ++ post)).length := by
      rw [ho, hs]
      simp [List.length_append]
    rw [if_pos hle, ho, hs, List.drop_left, List.take_left' rfl]

theorem BNLHeader.to_bytes_len (h : BNLHeader)
    (hu : h.unknown_2.length = 5) : h.to_bytes.length = 40 := by
  simp [BNLHeader.to_bytes, hu]

theorem BNLHeader.to_bytes_split (h : BNLHeader) (rest : List Nat) :
    h.to_bytes ++ rest
      = toLE 2 h.file_count ++ (toLE 1 h.flags
        ++ ((h.unknown_2.map (· % 256))
        ++ (toLE 4 h.asset_desc_loc.offset ++ (toLE 4 h.asset_desc_loc.size
        ++ (toLE 4 h.buffer_views_loc.offset
        ++ (toLE 4 h.buffer_views_loc.size
        ++ (toLE 4 h.buffer_loc.offset ++ (toLE 4 h.buffer_loc.size
        ++ (toLE 4 h.descriptor_loc.offset
        ++ (toLE 4 h.descriptor_loc.size ++ rest)))))))))) := by
  simp only [BNLHeader.to_bytes, List.append_assoc]

/-- Reading the four header `DataView`s back from serialised header
bytes yields the u32-truncated field values. -/
theorem parseHeader_locs (h : BNLHeader) (rest : List Nat)
    (hu : h.unknown_2.length = 5) :
    (parseHeader (h.to_bytes ++ rest)).asset_desc_loc
        = ⟨h.asset_desc_loc.offset % 2 ^ 32,
            h.asset_desc_loc.size % 2 ^ 32⟩ ∧
      (parseHeader (h.to_bytes ++ rest)).buffer_views_loc
        = ⟨h.buffer_views_loc.offset % 2 ^ 32,
            h.buffer_views_loc.size % 2 ^ 32⟩ ∧
      (parseHeader (h.to_bytes ++ rest)).buffer_loc
        = ⟨h.buffer_loc.offset % 2 ^ 32, h.buffer_loc.size % 2 ^ 32⟩ ∧
      (parseHeader (h.to_bytes ++ rest)).descriptor_loc
        = ⟨h.descriptor_loc.offset % 2 ^ 32,
            h.descriptor_loc.size % 2 ^ 32⟩ := by
  have hmap : (h.unknown_2.map (· % 256)).length = 5 := by
    rw [List.length_map, hu]
  have e8 : ∀ k : Nat,
      u32At (h.to_bytes ++ rest) (8 + k)
        = u32At (toLE 4 h.asset_desc_loc.offset ++ (toLE 4 h.asset_desc_loc.size
          ++ (toLE 4 h.buffer_views_loc.offset
          ++ (toLE 4 h.buffer_views_loc.size
          ++ (toLE 4 h.buffer_loc.offset ++ (toLE 4 h.buffer_loc.size
          ++ (toLE 4 h.descriptor_loc.offset
          ++ (toLE 4 h.descriptor_loc.size ++ rest)))))))) k := by
    intro k
    rw [BNLHeader.to_bytes_split,
      u32At_at _ _ _ (6 + k) (by rw [toLE_length]; omega),
      u32At_at _ _ _ (5 + k) (by rw [toLE_length]; omega),
      u32At_at _ _ _ k (by rw [hmap])]
  refine ⟨?_, ?_, ?_, ?_⟩
  · show DataView.mk (u32At _ 8) (u32At _ 12) = _
    rw [show (8 : Nat) = 8 + 0 by norm_num, e8 0,
      show (12 : Nat) = 8 + 4 by norm_num, e8 4,
      u32At_here_mod, u32At_skip _ _ 4 0 (by norm_num), u32At_here_mod]
  · show DataView.mk (u32At _ 16) (u32At _ 20) = _
    rw [show (16 : Nat) = 8 + 8 by norm_num, e8 8,
      show (20 : Nat) = 8 + 12 by norm_num, e8 12,
      u32At_skip _ _ 8 4 (by norm_num), u32At_skip _ _ 4 0 (by norm_num),
      u32At_here_mod,
      u32At_skip _ _ 12 8 (by norm_num), u32At_skip _ _ 8 4 (by norm_num),
      u32At_skip _ _ 4 0 (by norm_num), u32At_here_mod]
  · show DataView.mk (u32At _ 24) (u32At _ 28) = _
    rw [show (24 : Nat) = 8 + 16 by norm_num, e8 16,
      show (28 : Nat) = 8 + 20 by norm_num, e8 20,
      u32At_skip _ _ 16 12 (by norm_num), u32At_skip _ _ 12 8 (by norm_num),
      u32At_skip _ _ 8 4 (by norm_num), u32At_skip _ _ 4 0 (by norm_num),
      u32At_here_mod,
      u32At_skip _ _ 20 16 (by norm_num), u32At_skip _ _ 16 12 (by norm_num),
      u32At_skip _ _ 12 8 (by norm_num), u32At_skip _ _ 8 4 (by norm_num),
      u32At_skip _ _ 4 0 (by norm_num), u32At_here_mod]
  · show DataView.mk (u32At _ 32) (u32At _ 36) = _
    rw [show (32 : Nat) = 8 + 24 by norm_num, e8 24,
      show (36 : Nat) = 8 + 28 by norm_num, e8 28,
      u32At_skip _ _ 24 20 (by norm_num), u32At_skip _ _ 20 16 (by norm_num),
      u32At_skip _ _ 16 12 (by norm_num), u32At_skip _ _ 12 8 (by norm_num),
      u32At_skip _ _ 8 4 (by norm_num), u32At_skip _ _ 4 0 (by norm_num),
      u32At_here_mod,
      u32At_skip _ _ 28 24 (by norm_num), u32At_skip _ _ 24 20 (by norm_num),
      u32At_skip _ _ 20 16 (by norm_num), u32At_skip _ _ 16 12 (by norm_num),
      u32At_skip _ _ 12 8 (by norm_num), u32At_skip _ _ 8 4 (by norm_num),
      u32At_skip _ _ 4 0 (by norm_num), u32At_here_mod]

/-- The per-asset well-formedness that decoding guarantees and
re-encoding needs: fixed-width byte-valued name and u32-sized metadata
fields, byte-valued descriptor and chunk contents. -/
def RawAsset.rtWF (a : RawAsset) : Prop :=
  a.metadata.name.length = NAME_LEN ∧ ByteList a.metadata.name ∧
    a.metadata.asset_type < 2 ^ 32 ∧ a.metadata.unk_1 < 2 ^ 32 ∧
    a.metadata.unk_2 < 2 ^ 32 ∧ ByteList a.descriptor_bytes ∧
    ∀ chunks, a.resource_chunks = some chunks → ∀ c ∈ chunks, ByteList c

theorem recordOf_wf (a : RawAsset) (vLen dLen : Nat) (h : a.rtWF) :
    (recordOf a vLen dLen).wf := by
  obtain ⟨hn, -, ht, hu1, hu2, -, -⟩ := h
  have h32 : (0 : Nat) < 2 ^ 32 := by norm_num
  unfold AssetDescription.wf recordOf descriptionOfMetadata
  cases hc : a.resource_chunks with
  | none =>
    dsimp only
    exact ⟨hn, ht, hu1, hu2, by norm_num, Nat.mod_lt _ h32,
      Nat.mod_lt _ h32, by norm_num, by norm_num⟩
  | some chunks =>
    dsimp only
    exact ⟨hn, ht, hu1, hu2, by norm_num, Nat.mod_lt _ h32,
      Nat.mod_lt _ h32, Nat.mod_lt _ h32, Nat.mod_lt _ h32⟩

theorem DataViewList.to_bytes_size (dvl : DataViewList) :
    dvl.to_bytes.length = 8 + 8 * dvl.views.length := by
  simp only [DataViewList.to_bytes, List.length_append, toLE_length,
    viewBytes_length]

theorem dvlBytesOf_length_some (a : RawAsset) (bLen : Nat)
    (chunks : List (List Nat)) (hc : a.resource_chunks = some chunks) :
    (dvlBytesOf a bLen).length = 8 + 8 * chunks.length := by
  unfold dvlBytesOf
  rw [hc]
  rw [DataViewList.to_bytes_size]
  dsimp only
  rw [chunkViews_length]

/-- Resolving the freshly recorded views against the rebuilt buffer
section recovers exactly the chunks, provided the buffer section stays
below the u32 limit. -/
theorem from_dvl_chunkViews (chunks : List (List Nat)) :
    ∀ (pre post : List Nat),
      pre.length + chunks.flatten.length < 2 ^ 32 →
      VirtualResource.from_dvl (chunkViews pre.length chunks)
        (pre ++ (chunks.flatten ++ post)) = .ok chunks := by
  induction chunks with
  | nil => intro pre post _; rfl
  | cons c rest ih =>
    intro pre post hsmall
    simp only [List.flatten_cons, List.length_append] at hsmall ⊢
    rw [chunkViews, VirtualResource.from_dvl]
    dsimp only
    have hoff : pre.length % 2 ^ 32 = pre.length :=
      Nat.mod_eq_of_lt (by omega)
    have hsz : c.length % 2 ^ 32 = c.length :=
      Nat.mod_eq_of_lt (by omega)
    rw [hoff, hsz]
    have hc1 : ¬ (pre.length > (pre ++ (c ++ rest.flatten ++ post)).length) := by
      simp [List.length_append]
    have hc2 : ¬ ((pre ++ (c ++ rest.flatten ++ post)).length - pre.length
        < c.length) := by
      simp only [List.length_append]
      omega
    rw [if_neg hc1, if_neg hc2]
    have hrest : VirtualResource.from_dvl
        (chunkViews (pre.length + c.length) rest)
        (pre ++ (c ++ rest.flatten ++ post)) = .ok rest := by
      have h2 := ih (pre ++ c) post (by rw [List.length_append]; omega)
      rw [List.length_append] at h2
      have he : (pre ++ c) ++ (rest.flatten ++ post)
          = pre ++ (c ++ rest.flatten ++ post) := by
        simp [List.append_assoc]
      rwa [he] at h2
    rw [hrest]
    have hslice : ((pre ++ (c ++ rest.flatten ++ post)).drop
        pre.length).take c.length = c := by
      rw [List.drop_left, List.append_assoc]
      exact List.take_left' rfl
    rw [hslice]

theorem chunkViews_mem_lt (chunks : List (List Nat)) :
    ∀ (base : Nat) (v : DataView), v ∈ chunkViews base chunks →
      v.offset < 2 ^ 32 ∧ v.size < 2 ^ 32 := by
  induction chunks with
  | nil => intro base v hv; cases hv
  | cons c rest ih =>
    intro base v hv
    rw [chunkViews] at hv
    rcases List.mem_cons.mp hv with h | h
    · subst h
      exact ⟨Nat.mod_lt _ (by norm_num), Nat.mod_lt _ (by norm_num)⟩
    · exact ih _ v h

/-- Decoding the record that the encode loop wrote for an asset, against
the rebuilt sections, recovers exactly that asset (no truncation occurs
while each section prefix stays below the u32 limit). -/
theorem decodeRecord_encoded (a : RawAsset) (h : a.rtWF)
    (D0 Dpost V0 Vpost B0 Bpost : List Nat)
    (hDs : D0.length + a.descriptor_bytes.length < 2 ^ 32)
    (hVs : V0.length + (dvlBytesOf a B0.length).length < 2 ^ 32)
    (hBs : B0.length + (bufBytesOf a).length < 2 ^ 32) :
    decodeRecord (D0 ++ (a.descriptor_bytes ++ Dpost))
      (V0 ++ (dvlBytesOf a B0.length ++ Vpost))
      (B0 ++ (bufBytesOf a ++ Bpost))
      (recordOf a V0.length D0.length) = .ok a := by
  have hdslice : ((D0 ++ (a.descriptor_bytes ++ Dpost)).drop
      D0.length).take a.descriptor_bytes.length = a.descriptor_bytes := by
    rw [List.drop_left]
    exact List.take_left' rfl
  have hdlen : (D0 ++ (a.descriptor_bytes ++ Dpost)).length
      = D0.length + a.descriptor_bytes.length + Dpost.length := by
    simp [List.length_append]
    omega
  cases a with
  | mk m db ch =>
    obtain ⟨hn, hbn, ht, hu1, hu2, hdb, hcb⟩ := h
    dsimp only at hdslice hdlen hDs hVs hBs ⊢
    cases hc : ch with
    | none =>
      have hrec : recordOf ⟨m, db, none⟩ V0.length D0.length
          = ⟨m, 2, D0.length % 2 ^ 32, db.length % 2 ^ 32, 0, 0⟩ := by
        unfold recordOf descriptionOfMetadata
        rfl
      subst hc
      rw [hrec]
      unfold decodeRecord
      dsimp only
      rw [Nat.mod_eq_of_lt (show D0.length < 2 ^ 32 by omega),
        Nat.mod_eq_of_lt (show db.length < 2 ^ 32 by omega)]
      rw [if_neg (by rw [hdlen]; omega), if_pos rfl, hdslice]
    | some chunks =>
      subst hc
      have hdvlb : dvlBytesOf ⟨m, db, some chunks⟩ B0.length
          = (DataViewList.mk ((8 + 8 * chunks.length) % 2 ^ 32)
            (chunks.length % 2 ^ 32) (chunkViews B0.length chunks)).to_bytes := by
        unfold dvlBytesOf
        rfl
      have hdvlen : (dvlBytesOf ⟨m, db, some chunks⟩ B0.length).length
          = 8 + 8 * chunks.length :=
        dvlBytesOf_length_some _ _ _ rfl
      have hbufb : bufBytesOf ⟨m, db, some chunks⟩ = chunks.flatten := by
        unfold bufBytesOf
        rfl
      rw [hdvlen] at hVs
      rw [hbufb] at hBs ⊢
      have hrec : recordOf ⟨m, db, some chunks⟩ V0.length D0.length
          = ⟨m, 2, D0.length % 2 ^ 32, db.length % 2 ^ 32,
              V0.length % 2 ^ 32, (8 + 8 * chunks.length) % 2 ^ 32⟩ := by
        unfold recordOf descriptionOfMetadata
        rfl
      rw [hrec]
      unfold decodeRecord
      dsimp only
      rw [Nat.mod_eq_of_lt (show D0.length < 2 ^ 32 by omega),
        Nat.mod_eq_of_lt (show db.length < 2 ^ 32 by omega),
        Nat.mod_eq_of_lt (show V0.length < 2 ^ 32 by omega),
        Nat.mod_eq_of_lt (show 8 + 8 * chunks.length < 2 ^ 32 by omega)]
      rw [if_neg (by rw [hdlen]; omega), if_neg (by omega),
        if_neg (by simp [List.length_append])]
      rw [hdvlb]
      have hviews : (V0 ++ ((DataViewList.mk ((8 + 8 * chunks.length) % 2 ^ 32)
          (chunks.length % 2 ^ 32) (chunkViews B0.length chunks)).to_bytes
            ++ Vpost)).drop V0.length
          = (DataViewList.mk ((8 + 8 * chunks.length) % 2 ^ 32)
            (chunks.length % 2 ^ 32) (chunkViews B0.length chunks)).to_bytes
            ++ Vpost := List.drop_left _ _
      rw [hviews]
      have hwf : (DataViewList.mk ((8 + 8 * chunks.length) % 2 ^ 32)
          (chunks.length % 2 ^ 32) (chunkViews B0.length chunks)).wf := by
        refine ⟨Nat.mod_lt _ (by norm_num), ?_, Nat.mod_lt _ (by norm_num),
          ?_⟩
        · dsimp only
          rw [chunkViews_length]
          exact Nat.mod_eq_of_lt (by omega)
        · intro v hv
          exact chunkViews_mem_lt chunks B0.length v hv
      rw [DataViewList.round_trip _ hwf Vpost]
      dsimp only
      have hslices : (DataViewList.mk ((8 + 8 * chunks.length) % 2 ^ 32)
          (chunks.length % 2 ^ 32) (chunkViews B0.length chunks)).slices
          (B0 ++ (chunks.flatten ++ Bpost)) = .ok chunks := by
        unfold DataViewList.slices
        exact from_dvl_chunkViews chunks B0 Bpost (by omega)
      rw [hslices]
      dsimp only
      rw [hdslice]

/-- The decode loop, run over the sections rebuilt by the encode loop,
recovers exactly the encoded asset list (given per-asset
well-formedness and u32-boundedness of every section). -/
theorem parseRecords_buildRest :
    ∀ (l : List RawAsset) (C0 Cpost V0 B0 D0 : List Nat),
      (∀ a ∈ l, a.rtWF) →
      V0.length + (buildRest l V0.length B0.length D0.length).viewsSec.length
        < 2 ^ 32 →
      B0.length + (buildRest l V0.length B0.length D0.length).bufSec.length
        < 2 ^ 32 →
      D0.length + (buildRest l V0.length B0.length D0.length).descrSec.length
        < 2 ^ 32 →
      parseRecords
        (C0 ++ ((buildRest l V0.length B0.length D0.length).descSec ++ Cpost))
        (D0 ++ (buildRest l V0.length B0.length D0.length).descrSec)
        (V0 ++ (buildRest l V0.length B0.length D0.length).viewsSec)
        (B0 ++ (buildRest l V0.length B0.length D0.length).bufSec)
        l.length C0.length
      = .ok l := by
  intro l
  induction l with
  | nil =>
    intro C0 Cpost V0 B0 D0 _ _ _ _
    rw [List.length_nil, parseRecords]
  | cons a rest ih =>
    intro C0 Cpost V0 B0 D0 hwf hVs hBs hDs
    have hwfa : a.rtWF := hwf a (List.mem_cons_self _ _)
    simp only [buildRest] at hVs hBs hDs ⊢
    simp only [List.length_cons]
    rw [parseRecords]
    have hchunk : bytesAt
        (C0 ++ (((recordOf a V0.length D0.length).to_bytes
          ++ (buildRest rest (V0.length + (dvlBytesOf a B0.length).length)
            (B0.length + (bufBytesOf a).length)
            (D0.length + a.descriptor_bytes.length)).descSec) ++ Cpost))
        C0.length ASSET_DESCRIPTION_SIZE
        = some (recordOf a V0.length D0.length).to_bytes := by
      rw [show ((recordOf a V0.length D0.length).to_bytes
          ++ (buildRest rest (V0.length + (dvlBytesOf a B0.length).length)
            (B0.length + (bufBytesOf a).length)
            (D0.length + a.descriptor_bytes.length)).descSec) ++ Cpost
          = (recordOf a V0.length D0.length).to_bytes
          ++ ((buildRest rest (V0.length + (dvlBytesOf a B0.length).length)
            (B0.length + (bufBytesOf a).length)
            (D0.length + a.descriptor_bytes.length)).descSec ++ Cpost)
        from List.append_assoc _ _ _]
      exact bytesAt_exact _ _ _ _ (AssetDescription.to_bytes_length _)
    rw [hchunk]
    dsimp only
    rw [AssetDescription.from_to _ (recordOf_wf a V0.length D0.length hwfa)]
    dsimp only
    have hVs1 : V0.length + (dvlBytesOf a B0.length).length < 2 ^ 32 := by
      simp only [List.length_append] at hVs
      omega
    have hBs1 : B0.length + (bufBytesOf a).length < 2 ^ 32 := by
      simp only [List.length_append] at hBs
      omega
    have hDs1 : D0.length + a.descriptor_bytes.length < 2 ^ 32 := by
      simp only [List.length_append] at hDs
      omega
    rw [decodeRecord_encoded a hwfa D0
      (buildRest rest (V0.length + (dvlBytesOf a B0.length).length)
        (B0.length + (bufBytesOf a).length)
        (D0.length + a.descriptor_bytes.length)).descrSec
      V0
      (buildRest rest (V0.length + (dvlBytesOf a B0.length).length)
        (B0.length + (bufBytesOf a).length)
        (D0.length + a.descriptor_bytes.length)).viewsSec
      B0
      (buildRest rest (V0.length + (dvlBytesOf a B0.length).length)
        (B0.length + (bufBytesOf a).length)
        (D0.length + a.descriptor_bytes.length)).bufSec
      hDs1 hVs1 hBs1]
    dsimp only
    have hrec := ih (C0 ++ (recordOf a V0.length D0.length).to_bytes) Cpost
      (V0 ++ dvlBytesOf a B0.length) (B0 ++ bufBytesOf a)
      (D0 ++ a.descriptor_bytes)
      (fun x hx => hwf x (List.mem_cons_of_mem _ hx))
      (by simp only [List.length_append] at hVs ⊢; omega)
      (by simp only [List.length_append] at hBs ⊢; omega)
      (by simp only [List.length_append] at hDs ⊢; omega)
    simp only [List.length_append, AssetDescription.to_bytes_length,
      List.append_assoc] at hrec ⊢
    rw [hrec]

theorem readSection_byteList (bytes : List Nat) (loc : DataView)
    (sec : List Nat) (h : readSection bytes loc = .ok sec)
    (hb : ByteList bytes) : ByteList sec := by
  unfold readSection at h
  by_cases h0 : loc.size = 0
  · rw [if_pos h0] at h
    cases h
    intro x hx
    cases hx
  · rw [if_neg h0] at h
    by_cases h1 : loc.offset + loc.size ≤ bytes.length
    · rw [if_pos h1] at h
      cases h
      exact byteList_take _ _ (byteList_drop _ _ hb)
    · rw [if_neg h1] at h
      cases h

theorem from_dvl_byteList (views : List DataView) (bytes : List Nat)
    (sl : List (List Nat))
    (h : VirtualResource.from_dvl views bytes = .ok sl)
    (hb : ByteList bytes) : ∀ c ∈ sl, ByteList c := by
  induction views generalizing sl with
  | nil =>
    rw [VirtualResource.from_dvl] at h
    cases h
    intro c hc
    cases hc
  | cons v rest ih =>
    rw [VirtualResource.from_dvl] at h
    by_cases h1 : v.offset > bytes.length
    · rw [if_pos h1] at h; cases h
    · rw [if_neg h1] at h
      by_cases h2 : bytes.length - v.offset < v.size
      · rw [if_pos h2] at h; cases h
      · rw [if_neg h2] at h
        cases hr : VirtualResource.from_dvl rest bytes with
        | error e => rw [hr] at h; cases h
        | ok tl =>
          rw [hr] at h
          dsimp only at h
          cases h
          intro c hc
          rcases List.mem_cons.mp hc with rfl | hc2
          · exact byteList_take _ _ (byteList_drop _ _ hb)
          · exact ih tl hr c hc2

theorem AssetDescription.from_bytes_ok_meta (chunk : List Nat)
    (d : AssetDescription) (h : AssetDescription.from_bytes chunk = .ok d)
    (hb : ByteList chunk) :
    d.metadata.name.length = NAME_LEN ∧ ByteList d.metadata.name ∧
      d.metadata.asset_type < 2 ^ 32 ∧ d.metadata.unk_1 < 2 ^ 32 ∧
      d.metadata.unk_2 < 2 ^ 32 := by
  unfold AssetDescription.from_bytes at h
  by_cases hl : chunk.length = ASSET_DESCRIPTION_SIZE
  · rw [if_pos hl] at h
    cases h
    refine ⟨?_, byteList_take _ _ hb, u32At_lt _ _ hb, u32At_lt _ _ hb,
      u32At_lt _ _ hb⟩
    rw [List.length_take, hl, ASSET_DESCRIPTION_SIZE]
    omega
  · rw [if_neg hl] at h
    cases h

theorem decodeRecord_rtWF (descSec viewsSec bufSec : List Nat)
    (d : AssetDescription) (a : RawAsset)
    (h : decodeRecord descSec viewsSec bufSec d = .ok a)
    (hdesc : ByteList descSec) (hbuf : ByteList bufSec)
    (hm : d.metadata.name.length = NAME_LEN ∧ ByteList d.metadata.name ∧
      d.metadata.asset_type < 2 ^ 32 ∧ d.metadata.unk_1 < 2 ^ 32 ∧
      d.metadata.unk_2 < 2 ^ 32) : a.rtWF := by
  obtain ⟨h1, h2, h3, h4, h5⟩ := hm
  unfold decodeRecord at h
  by_cases hp : d.descriptor_ptr + d.descriptor_size > descSec.length
  · rw [if_pos hp] at h; cases h
  · rw [if_neg hp] at h
    dsimp only at h
    by_cases h0 : d.resource_size = 0
    · rw [if_pos h0] at h
      cases h
      exact ⟨h1, h2, h3, h4, h5,
        byteList_take _ _ (byteList_drop _ _ hdesc),
        fun chunks hc => by cases hc⟩
    · rw [if_neg h0] at h
      by_cases hv : d.dataview_list_ptr > viewsSec.length
      · rw [if_pos hv] at h; cases h
      · rw [if_neg hv] at h
        cases hdvl : DataViewList.from_bytes
            (viewsSec.drop d.dataview_list_ptr) with
        | error e => rw [hdvl] at h; cases h
        | ok dvl =>
          rw [hdvl] at h
          dsimp only at h
          cases hsl : dvl.slices bufSec with
          | error e => rw [hsl] at h; cases h
          | ok sl =>
            rw [hsl] at h
            dsimp only at h
            cases h
            refine ⟨h1, h2, h3, h4, h5,
              byteList_take _ _ (byteList_drop _ _ hdesc),
              fun chunks hc => ?_⟩
            cases hc
            exact from_dvl_byteList _ _ _ hsl hbuf

theorem parseRecords_rtWF (combined descSec viewsSec bufSec : List Nat)
    (hcom : ByteList combined) (hdesc : ByteList descSec)
    (hbuf : ByteList bufSec) :
    ∀ (n p : Nat) (assets : List RawAsset),
      parseRecords combined descSec viewsSec bufSec n p = .ok assets →
      ∀ a ∈ assets, a.rtWF := by
  intro n
  induction n with
  | zero =>
    intro p assets h
    rw [parseRecords] at h
    cases h
    intro a ha
    cases ha
  | succ n ih =>
    intro p assets h
    rw [parseRecords] at h
    cases hb : bytesAt combined p ASSET_DESCRIPTION_SIZE with
    | none => rw [hb] at h; cases h
    | some chunk =>
      rw [hb] at h
      dsimp only at h
      cases hd : AssetDescription.from_bytes chunk with
      | error e => rw [hd] at h; cases h
      | ok d =>
        rw [hd] at h
        dsimp only at h
        cases hr : decodeRecord descSec viewsSec bufSec d with
        | panicked => rw [hr] at h; cases h
        | err e => rw [hr] at h; cases h
        | ok ra =>
          rw [hr] at h
          dsimp only at h
          cases hrest : parseRecords combined descSec viewsSec bufSec n
              (p + ASSET_DESCRIPTION_SIZE) with
          | panicked => rw [hrest] at h; cases h
          | err e => rw [hrest] at h; cases h
          | ok rest =>
            rw [hrest] at h
            dsimp only at h
            cases h
            have hchunkB : ByteList chunk := by
              unfold bytesAt at hb
              by_cases hle : p + ASSET_DESCRIPTION_SIZE ≤ combined.length
              · rw [if_pos hle] at hb
                cases hb
                exact byteList_take _ _ (byteList_drop _ _ hcom)
              · rw [if_neg hle] at hb
                cases hb
            intro a ha
            rcases List.mem_cons.mp ha with rfl | ha2
            · exact decodeRecord_rtWF _ _ _ _ _ hr hdesc hbuf
                (AssetDescription.from_bytes_ok_meta _ _ hd hchunkB)
            · exact ih _ rest hrest a ha2

/-- Any successful decode over byte-valued input (with an `inflate`
producing byte values) yields only round-trip-well-formed assets. -/
theorem from_bytes_rtWF (inflate : List Nat → Option (List Nat))
    (input : List Nat) (bnl : BNLFile)
    (h : BNLFile.from_bytes inflate input = .ok bnl)
    (hin : ByteList input)
    (hinf : ∀ b l, inflate b = some l → ByteList l) :
    ∀ a ∈ bnl.assets, a.rtWF := by
  obtain ⟨-, -, dd, adSec, viewsSec, bufSec, descSec,
    hdd, -, -, h3, h4, h5⟩ := from_bytes_ok_inv inflate input bnl h
  have hbytes : ByteList (input.take 40 ++ dd) :=
    byteList_append _ _ (byteList_take _ _ hin) (hinf _ _ hdd)
  exact parseRecords_rtWF _ _ _ _ hbytes
    (readSection_byteList _ _ _ h4 hbytes)
    (readSection_byteList _ _ _ h3 hbytes) _ _ _ h5

theorem byteList_replicate (n : Nat) : ByteList (List.replicate n 0) := by
  intro x hx
  rw [List.eq_of_mem_replicate hx]
  norm_num

theorem AssetDescription.to_bytes_byteList (d : AssetDescription)
    (h : ByteList d.metadata.name) : ByteList d.to_bytes := by
  unfold AssetDescription.to_bytes
  repeat' apply byteList_append
  all_goals first
    | exact byteList_take _ _ h
    | exact byteList_replicate _
    | exact toLE_byteList _ _

theorem DataViewList.to_bytes_bytes (dvl : DataViewList) :
    ByteList dvl.to_bytes := by
  intro x hx
  simp only [DataViewList.to_bytes, List.mem_append, List.mem_flatten,
    List.mem_map] at hx
  rcases hx with (hx | hx) | ⟨l, ⟨v, hv, rfl⟩, hx⟩
  · exact toLE_byteList _ _ _ hx
  · exact toLE_byteList _ _ _ hx
  · rcases List.mem_append.mp hx with hx | hx
    · exact toLE_byteList _ _ _ hx
    · exact toLE_byteList _ _ _ hx

theorem dvlBytesOf_byteList (a : RawAsset) (bLen : Nat) :
    ByteList (dvlBytesOf a bLen) := by
  unfold dvlBytesOf
  cases hc : a.resource_chunks with
  | none =>
    dsimp only
    intro x hx
    cases hx
  | some chunks =>
    dsimp only
    exact DataViewList.to_bytes_bytes _

theorem bufBytesOf_byteList (a : RawAsset) (h : a.rtWF) :
    ByteList (bufBytesOf a) := by
  obtain ⟨-, -, -, -, -, -, hch⟩ := h
  unfold bufBytesOf
  cases hc : a.resource_chunks with
  | none =>
    dsimp only
    intro x hx
    cases hx
  | some chunks =>
    dsimp only
    intro x hx
    rw [List.mem_flatten] at hx
    obtain ⟨c, hc2, hx2⟩ := hx
    exact hch chunks hc c hc2 x hx2

theorem recordOf_metadata (a : RawAsset) (vLen dLen : Nat) :
    (recordOf a vLen dLen).metadata = a.metadata := by
  unfold recordOf descriptionOfMetadata
  cases a.resource_chunks <;> rfl

theorem buildRest_byteList (l : List RawAsset) :
    ∀ vLen bLen dLen, (∀ a ∈ l, a.rtWF) →
      ByteList (buildRest l vLen bLen dLen).descSec ∧
      ByteList (buildRest l vLen bLen dLen).viewsSec ∧
      ByteList (buildRest l vLen bLen dLen).bufSec ∧
      ByteList (buildRest l vLen bLen dLen).descrSec := by
  induction l with
  | nil =>
    intro _ _ _ _
    simp only [buildRest]
    refine ⟨?_, ?_, ?_, ?_⟩ <;> exact fun x hx => absurd hx (List.not_mem_nil x)
  | cons a rest ih =>
    intro vLen bLen dLen h
    have ha := h a (List.mem_cons_self _ _)
    obtain ⟨ih1, ih2, ih3, ih4⟩ :=
      ih (vLen + (dvlBytesOf a bLen).length)
        (bLen + (bufBytesOf a).length) (dLen + a.descriptor_bytes.length)
        (fun x hx => h x (List.mem_cons_of_mem _ hx))
    simp only [buildRest]
    have hname : ByteList (recordOf a vLen dLen).metadata.name := by
      rw [recordOf_metadata]
      exact ha.2.1
    exact ⟨byteList_append _ _
        (AssetDescription.to_bytes_byteList _ hname) ih1,
      byteList_append _ _ (dvlBytesOf_byteList _ _) ih2,
      byteList_append _ _ (bufBytesOf_byteList _ ha) ih3,
      byteList_append _ _ ha.2.2.2.2.2.1 ih4⟩

theorem buildRest_descSec_length (l : List RawAsset) :
    ∀ vLen bLen dLen, (buildRest l vLen bLen dLen).descSec.length
      = l.length * ASSET_DESCRIPTION_SIZE := by
  induction l with
  | nil =>
    intro _ _ _
    simp [buildRest]
  | cons a rest ih =>
    intro vLen bLen dLen
    simp only [buildRest, List.length_append, List.length_cons,
      AssetDescription.to_bytes_length, ih]
    ring

/-- The four sections rebuilt by the encode loop of `BNLFile::to_bytes`
starting from empty buffers. -/
def encSections (bnl : BNLFile) : Sections :=
  bnl.assets.foldl encodeStep ⟨[], [], [], []⟩

/-- The header recomputed by `BNLFile::to_bytes` (src/bnl.rs lines
403-423). -/
def encHeader (bnl : BNLFile) : BNLHeader :=
  { file_count := bnl.assets.length % 2 ^ 16
    flags := bnl.header.flags
    unknown_2 := bnl.header.unknown_2
    asset_desc_loc := ⟨40 % 2 ^ 32, (encSections bnl).descSec.length % 2 ^ 32⟩
    buffer_views_loc := ⟨(40 + (encSections bnl).descSec.length) % 2 ^ 32,
      (encSections bnl).viewsSec.length % 2 ^ 32⟩
    buffer_loc := ⟨(40 + (encSections bnl).descSec.length
        + (encSections bnl).viewsSec.length) % 2 ^ 32,
      (encSections bnl).bufSec.length % 2 ^ 32⟩
    descriptor_loc := ⟨(40 + (encSections bnl).descSec.length
        + (encSections bnl).viewsSec.length
        + (encSections bnl).bufSec.length) % 2 ^ 32,
      (encSections bnl).descrSec.length % 2 ^ 32⟩ }

theorem BNLFile.to_bytes_enc (deflate : List Nat → List Nat)
    (bnl : BNLFile) :
    BNLFile.to_bytes deflate bnl
      = (encHeader bnl).to_bytes
        ++ deflate ((encSections bnl).descSec ++ (encSections bnl).viewsSec
          ++ (encSections bnl).bufSec ++ (encSections bnl).descrSec) := rfl

theorem encSections_eq (bnl : BNLFile) :
    encSections bnl = ⟨(buildRest bnl.assets 0 0 0).descSec,
      (buildRest bnl.assets 0 0 0).viewsSec,
      (buildRest bnl.assets 0 0 0).bufSec,
      (buildRest bnl.assets 0 0 0).descrSec⟩ := by
  unfold encSections
  have h := foldl_encode bnl.assets ⟨[], [], [], []⟩
  simpa using h

theorem encSections_descSec (bnl : BNLFile) :
    (encSections bnl).descSec = (buildRest bnl.assets 0 0 0).descSec := by
  rw [encSections_eq]

theorem encSections_viewsSec (bnl : BNLFile) :
    (encSections bnl).viewsSec = (buildRest bnl.assets 0 0 0).viewsSec := by
  rw [encSections_eq]

theorem encSections_bufSec (bnl : BNLFile) :
    (encSections bnl).bufSec = (buildRest bnl.assets 0 0 0).bufSec := by
  rw [encSections_eq]

theorem encSections_descrSec (bnl : BNLFile) :
    (encSections bnl).descrSec = (buildRest bnl.assets 0 0 0).descrSec := by
  rw [encSections_eq]

theorem mod32_twice (n : Nat) (h : n < 2 ^ 32) :
    n % 2 ^ 32 % 2 ^ 32 = n := by
  rw [Nat.mod_mod_of_dvd _ (dvd_refl _), Nat.mod_eq_of_lt h]

/-- Decoding the serialised form of a decoded archive succeeds and
returns the same asset list, provided `inflate` inverts `deflate` on
byte lists, the header carries its well-formed 5 unknown bytes, every
asset is round-trip well-formed, and the total output stays below the
u32 truncation threshold of the recomputed header. -/
theorem from_bytes_to_bytes_ok (inflate : List Nat → Option (List Nat))
    (deflate : List Nat → List Nat) (bnl : BNLFile)
    (hu : bnl.header.unknown_2.length = 5)
    (hwf : ∀ a ∈ bnl.assets, a.rtWF)
    (hcomp : ∀ b, ByteList b → inflate (deflate b) = some b)
    (hsmall : 40 + (encSections bnl).descSec.length
        + (encSections bnl).viewsSec.length + (encSections bnl).bufSec.length
        + (encSections bnl).descrSec.length < 2 ^ 32) :
    ∃ hdr2, BNLFile.from_bytes inflate (BNLFile.to_bytes deflate bnl)
      = .ok ⟨hdr2, bnl.assets⟩ := by
  obtain ⟨hbl1, hbl2, hbl3, hbl4⟩ := buildRest_byteList bnl.assets 0 0 0 hwf
  rw [encSections_descSec, encSections_viewsSec, encSections_bufSec,
    encSections_descrSec] at hsmall
  have hu2 : (encHeader bnl).unknown_2.length = 5 := hu
  have hhl : (encHeader bnl).to_bytes.length = 40 :=
    BNLHeader.to_bytes_len _ hu2
  rw [BNLFile.to_bytes_enc, encSections_descSec, encSections_viewsSec,
    encSections_bufSec, encSections_descrSec]
  have hblobB : ByteList ((buildRest bnl.assets 0 0 0).descSec
      ++ (buildRest bnl.assets 0 0 0).viewsSec
      ++ (buildRest bnl.assets 0 0 0).bufSec
      ++ (buildRest bnl.assets 0 0 0).descrSec) :=
    byteList_append _ _
      (byteList_append _ _ (byteList_append _ _ hbl1 hbl2) hbl3) hbl4
  refine ⟨parseHeader ((encHeader bnl).to_bytes
    ++ deflate ((buildRest bnl.assets 0 0 0).descSec
      ++ (buildRest bnl.assets 0 0 0).viewsSec
      ++ (buildRest bnl.assets 0 0 0).bufSec
      ++ (buildRest bnl.assets 0 0 0).descrSec)), ?_⟩
  rw [from_bytes_eq]
  have hlen : ¬ ((encHeader bnl).to_bytes
      ++ deflate ((buildRest bnl.assets 0 0 0).descSec
        ++ (buildRest bnl.assets 0 0 0).viewsSec
        ++ (buildRest bnl.assets 0 0 0).bufSec
        ++ (buildRest bnl.assets 0 0 0).descrSec)).length < 40 := by
    rw [List.length_append, hhl]
    omega
  rw [if_neg hlen]
  have hdrop : ((encHeader bnl).to_bytes
      ++ deflate ((buildRest bnl.assets 0 0 0).descSec
        ++ (buildRest bnl.assets 0 0 0).viewsSec
        ++ (buildRest bnl.assets 0 0 0).bufSec
        ++ (buildRest bnl.assets 0 0 0).descrSec)).drop 40
      = deflate ((buildRest bnl.assets 0 0 0).descSec
        ++ (buildRest bnl.assets 0 0 0).viewsSec
        ++ (buildRest bnl.assets 0 0 0).bufSec
        ++ (buildRest bnl.assets 0 0 0).descrSec) := by
    rw [← hhl, List.drop_left]
  have htake : ((encHeader bnl).to_bytes
      ++ deflate ((buildRest bnl.assets 0 0 0).descSec
        ++ (buildRest bnl.assets 0 0 0).viewsSec
        ++ (buildRest bnl.assets 0 0 0).bufSec
        ++ (buildRest bnl.assets 0 0 0).descrSec)).take 40
      = (encHeader bnl).to_bytes := by
    rw [← hhl, List.take_left]
  rw [hdrop, hcomp _ hblobB]
  dsimp only
  rw [htake]
  obtain ⟨hl1, hl2, hl3, hl4⟩ := parseHeader_locs (encHeader bnl)
    (deflate ((buildRest bnl.assets 0 0 0).descSec
      ++ (buildRest bnl.assets 0 0 0).viewsSec
      ++ (buildRest bnl.assets 0 0 0).bufSec
      ++ (buildRest bnl.assets 0 0 0).descrSec)) hu2
  have hp1 : (encHeader bnl).asset_desc_loc
      = ⟨40 % 2 ^ 32,
          (buildRest bnl.assets 0 0 0).descSec.length % 2 ^ 32⟩ := by
    rw [show (encHeader bnl).asset_desc_loc
        = ⟨40 % 2 ^ 32, (encSections bnl).descSec.length % 2 ^ 32⟩ from rfl,
      encSections_descSec]
  have hp2 : (encHeader bnl).buffer_views_loc
      = ⟨(40 + (buildRest bnl.assets 0 0 0).descSec.length) % 2 ^ 32,
          (buildRest bnl.assets 0 0 0).viewsSec.length % 2 ^ 32⟩ := by
    rw [show (encHeader bnl).buffer_views_loc
        = ⟨(40 + (encSections bnl).descSec.length) % 2 ^ 32,
            (encSections bnl).viewsSec.length % 2 ^ 32⟩ from rfl,
      encSections_descSec, encSections_viewsSec]
  have hp3 : (encHeader bnl).buffer_loc
      = ⟨(40 + (buildRest bnl.assets 0 0 0).descSec.length
            + (buildRest bnl.assets 0 0 0).viewsSec.length) % 2 ^ 32,
          (buildRest bnl.assets 0 0 0).bufSec.length % 2 ^ 32⟩ := by
    rw [show (encHeader bnl).buffer_loc
        = ⟨(40 + (encSections bnl).descSec.length
              + (encSections bnl).viewsSec.length) % 2 ^ 32,
            (encSections bnl).bufSec.length % 2 ^ 32⟩ from rfl,
      encSections_descSec, encSections_viewsSec, encSections_bufSec]
  have hp4 : (encHeader bnl).descriptor_loc
      = ⟨(40 + (buildRest bnl.assets 0 0 0).descSec.length
            + (buildRest bnl.assets 0 0 0).viewsSec.length
            + (buildRest bnl.assets 0 0 0).bufSec.length) % 2 ^ 32,
          (buildRest bnl.assets 0 0 0).descrSec.length % 2 ^ 32⟩ := by
    rw [show (encHeader bnl).descriptor_loc
        = ⟨(40 + (encSections bnl).descSec.length
              + (encSections bnl).viewsSec.length
              + (encSections bnl).bufSec.length) % 2 ^ 32,
            (encSections bnl).descrSec.length % 2 ^ 32⟩ from rfl,
      encSections_descSec, encSections_viewsSec, encSections_bufSec,
      encSections_descrSec]
  rw [hp1] at hl1
  rw [hp2] at hl2
  rw [hp3] at hl3
  rw [hp4] at hl4
  dsimp only at hl1 hl2 hl3 hl4
  have had1 : (parseHeader ((encHeader bnl).to_bytes
      ++ deflate ((buildRest bnl.assets 0 0 0).descSec
        ++ (buildRest bnl.assets 0 0 0).viewsSec
        ++ (buildRest bnl.assets 0 0 0).bufSec
        ++ (buildRest bnl.assets 0 0 0).descrSec))).asset_desc_loc
      = ⟨40, (buildRest bnl.assets 0 0 0).descSec.length⟩ := by
    rw [hl1, mod32_twice 40 (by norm_num), mod32_twice _ (by omega)]
  have had2 : (parseHeader ((encHeader bnl).to_bytes
      ++ deflate ((buildRest bnl.assets 0 0 0).descSec
        ++ (buildRest bnl.assets 0 0 0).viewsSec
        ++ (buildRest bnl.assets 0 0 0).bufSec
        ++ (buildRest bnl.assets 0 0 0).descrSec))).buffer_views_loc
      = ⟨40 + (buildRest bnl.assets 0 0 0).descSec.length,
          (buildRest bnl.assets 0 0 0).viewsSec.length⟩ := by
    rw [hl2, mod32_twice _ (by omega), mod32_twice _ (by omega)]
  have had3 : (parseHeader ((encHeader bnl).to_bytes
      ++ deflate ((buildRest bnl.assets 0 0 0).descSec
        ++ (buildRest bnl.assets 0 0 0).viewsSec
        ++ (buildRest bnl.assets 0 0 0).bufSec
        ++ (buildRest bnl.assets 0 0 0).descrSec))).buffer_loc
      = ⟨40 + (buildRest bnl.assets 0 0 0).descSec.length
            + (buildRest bnl.assets 0 0 0).viewsSec.length,
          (buildRest bnl.assets 0 0 0).bufSec.length⟩ := by
    rw [hl3, mod32_twice _ (by omega), mod32_twice _ (by omega)]
  have had4 : (parseHeader ((encHeader bnl).to_bytes
      ++ deflate ((buildRest bnl.assets 0 0 0).descSec
        ++ (buildRest bnl.assets 0 0 0).viewsSec
        ++ (buildRest bnl.assets 0 0 0).bufSec
        ++ (buildRest bnl.assets 0 0 0).descrSec))).descriptor_loc
      = ⟨40 + (buildRest bnl.assets 0 0 0).descSec.length
            + (buildRest bnl.assets 0 0 0).viewsSec.length
            + (buildRest bnl.assets 0 0 0).bufSec.length,
          (buildRest bnl.assets 0 0 0).descrSec.length⟩ := by
    rw [hl4, mod32_twice _ (by omega), mod32_twice _ (by omega)]
  rw [had1, had2, had3, had4]
  have r1 : readSection ((encHeader bnl).to_bytes
      ++ ((buildRest bnl.assets 0 0 0).descSec
        ++ (buildRest bnl.assets 0 0 0).viewsSec
        ++ (buildRest bnl.assets 0 0 0).bufSec
        ++ (buildRest bnl.assets 0 0 0).descrSec))
      ⟨40, (buildRest bnl.assets 0 0 0).descSec.length⟩
      = .ok (buildRest bnl.assets 0 0 0).descSec := by
    rw [show (buildRest bnl.assets 0 0 0).descSec
        ++ (buildRest bnl.assets 0 0 0).viewsSec
        ++ (buildRest bnl.assets 0 0 0).bufSec
        ++ (buildRest bnl.assets 0 0 0).descrSec
        = (buildRest bnl.assets 0 0 0).descSec
          ++ ((buildRest bnl.assets 0 0 0).viewsSec
            ++ ((buildRest bnl.assets 0 0 0).bufSec
              ++ (buildRest bnl.assets 0 0 0).descrSec))
      by simp [List.append_assoc]]
    exact readSection_exact _ _ _ _ hhl.symm rfl
  have r2 : readSection ((encHeader bnl).to_bytes
      ++ ((buildRest bnl.assets 0 0 0).descSec
        ++ (buildRest bnl.assets 0 0 0).viewsSec
        ++ (buildRest bnl.assets 0 0 0).bufSec
        ++ (buildRest bnl.assets 0 0 0).descrSec))
      ⟨40 + (buildRest bnl.assets 0 0 0).descSec.length,
        (buildRest bnl.assets 0 0 0).viewsSec.length⟩
      = .ok (buildRest bnl.assets 0 0 0).viewsSec := by
    rw [show (encHeader bnl).to_bytes
        ++ ((buildRest bnl.assets 0 0 0).descSec
          ++ (buildRest bnl.assets 0 0 0).viewsSec
          ++ (buildRest bnl.assets 0 0 0).bufSec
          ++ (buildRest bnl.assets 0 0 0).descrSec)
        = ((encHeader bnl).to_bytes ++ (buildRest bnl.assets 0 0 0).descSec)
          ++ ((buildRest bnl.assets 0 0 0).viewsSec
            ++ ((buildRest bnl.assets 0 0 0).bufSec
              ++ (buildRest bnl.assets 0 0 0).descrSec))
      by simp [List.append_assoc]]
    exact readSection_exact _ _ _ _
      (by rw [List.length_append, hhl]) rfl
  have r3 : readSection ((encHeader bnl).to_bytes
      ++ ((buildRest bnl.assets 0 0 0).descSec
        ++ (buildRest bnl.assets 0 0 0).viewsSec
        ++ (buildRest bnl.assets 0 0 0).bufSec
        ++ (buildRest bnl.assets 0 0 0).descrSec))
      ⟨40 + (buildRest bnl.assets 0 0 0).descSec.length
          + (buildRest bnl.assets 0 0 0).viewsSec.length,
        (buildRest bnl.assets 0 0 0).bufSec.length⟩
      = .ok (buildRest bnl.assets 0 0 0).bufSec := by
    rw [show (encHeader bnl).to_bytes
        ++ ((buildRest bnl.assets 0 0 0).descSec
          ++ (buildRest bnl.assets 0 0 0).viewsSec
          ++ (buildRest bnl.assets 0 0 0).bufSec
          ++ (buildRest bnl.assets 0 0 0).descrSec)
        = (((encHeader bnl).to_bytes ++ (buildRest bnl.assets 0 0 0).descSec)
            ++ (buildRest bnl.assets 0 0 0).viewsSec)
          ++ ((buildRest bnl.assets 0 0 0).bufSec
            ++ (buildRest bnl.assets 0 0 0).descrSec)
      by simp [List.append_assoc]]
    exact readSection_exact _ _ _ _
      (by rw [List.length_append, List.length_append, hhl]) rfl
  have r4 : readSection ((encHeader bnl).to_bytes
      ++ ((buildRest bnl.assets 0 0 0).descSec
        ++ (buildRest bnl.assets 0 0 0).viewsSec
        ++ (buildRest bnl.assets 0 0 0).bufSec
        ++ (buildRest bnl.assets 0 0 0).descrSec))
      ⟨40 + (buildRest bnl.assets 0 0 0).descSec.length
          + (buildRest bnl.assets 0 0 0).viewsSec.length
          + (buildRest bnl.assets 0 0 0).bufSec.length,
        (buildRest bnl.assets 0 0 0).descrSec.length⟩
      = .ok (buildRest bnl.assets 0 0 0).descrSec := by
    rw [show (encHeader bnl).to_bytes
        ++ ((buildRest bnl.assets 0 0 0).descSec
          ++ (buildRest bnl.assets 0 0 0).viewsSec
          ++ (buildRest bnl.assets 0 0 0).bufSec
          ++ (buildRest bnl.assets 0 0 0).descrSec)
        = ((((encHeader bnl).to_bytes ++ (buildRest bnl.assets 0 0 0).descSec)
            ++ (buildRest bnl.assets 0 0 0).viewsSec)
            ++ (buildRest bnl.assets 0 0 0).bufSec)
          ++ ((buildRest bnl.assets 0 0 0).descrSec ++ [])
      by simp [List.append_assoc]]
    exact readSection_exact _ _ _ _
      (by rw [List.length_append, List.length_append, List.length_append,
        hhl]) rfl
  rw [r1]
  dsimp only
  rw [r2]
  dsimp only
  rw [r3]
  dsimp only
  rw [r4]
  dsimp only
  have hn : (buildRest bnl.assets 0 0 0).descSec.length
      / ASSET_DESCRIPTION_SIZE = bnl.assets.length := by
    rw [buildRest_descSec_length]
    exact Nat.mul_div_cancel _ (by norm_num [ASSET_DESCRIPTION_SIZE, NAME_LEN])
  rw [hn]
  have hpr := parseRecords_buildRest bnl.assets (encHeader bnl).to_bytes
    ((buildRest bnl.assets 0 0 0).viewsSec
      ++ ((buildRest bnl.assets 0 0 0).bufSec
        ++ (buildRest bnl.assets 0 0 0).descrSec))
    [] [] [] hwf (by simp only [List.length_nil]; omega)
    (by simp only [List.length_nil]; omega)
    (by simp only [List.length_nil]; omega)
  simp only [List.length_nil, List.nil_append] at hpr
  rw [show (encHeader bnl).to_bytes
      ++ ((buildRest bnl.assets 0 0 0).descSec
        ++ (buildRest bnl.assets 0 0 0).viewsSec
        ++ (buildRest bnl.assets 0 0 0).bufSec
        ++ (buildRest bnl.assets 0 0 0).descrSec)
      = (encHeader bnl).to_bytes
        ++ ((buildRest bnl.assets 0 0 0).descSec
          ++ ((buildRest bnl.assets 0 0 0).viewsSec
            ++ ((buildRest bnl.assets 0 0 0).bufSec
              ++ (buildRest bnl.assets 0 0 0).descrSec)))
    from by simp [List.append_assoc]]
  rw [show (40 : Nat) = (encHeader bnl).to_bytes.length from hhl.symm]
  rw [hpr]

/-- C1 (amended): for every byte input that `BNLFile::from_bytes`
decodes successfully — with a compression pair in which `inflate`
produces byte output and inverts `deflate` on byte buffers — if the
total re-encoded output stays below the `as u32` truncation threshold
of the recomputed header fields, then encoding with `to_bytes` and
decoding the output again succeeds and yields exactly the same asset
list: same length and order, identical names, type codes, descriptor
bytes, and resource chunk contents. -/
theorem roundtrip_preserves_assets
    (inflate : List Nat → Option (List Nat)) (deflate : List Nat → List Nat)
    (input : List Nat) (bnl : BNLFile)
    (hinfb : ∀ b l, inflate b = some l → ByteList l)
    (hcomp : ∀ b, ByteList b → inflate (deflate b) = some b)
    (hin : ByteList input)
    (hdec : BNLFile.from_bytes inflate input = .ok bnl)
    (hsmall : 40
        + (bnl.assets.foldl encodeStep ⟨[], [], [], []⟩).descSec.length
        + (bnl.assets.foldl encodeStep ⟨[], [], [], []⟩).viewsSec.length
        + (bnl.assets.foldl encodeStep ⟨[], [], [], []⟩).bufSec.length
        + (bnl.assets.foldl encodeStep ⟨[], [], [], []⟩).descrSec.length
        < 2 ^ 32) :
    ∃ bnl2, BNLFile.from_bytes inflate (BNLFile.to_bytes deflate bnl)
        = .ok bnl2
      ∧ bnl2.assets = bnl.assets := by
  have hu : bnl.header.unknown_2.length = 5 := by
    obtain ⟨hge, hhd, -⟩ := from_bytes_ok_inv inflate input bnl hdec
    rw [hhd]
    show ((input.drop 3).take 5).length = 5
    rw [List.length_take, List.length_drop]
    omega
  have hwf := from_bytes_rtWF inflate input bnl hdec hin hinfb
  obtain ⟨hdr2, hok⟩ :=
    from_bytes_to_bytes_ok inflate deflate bnl hu hwf hcomp hsmall
  exact ⟨⟨hdr2, bnl.assets⟩, hok, rfl⟩

/-- A faithful stand-in for the external decompressor in witnesses: the
identity on byte buffers, failing on anything that is not a byte
buffer. -/
def c1Inflate (b : List Nat) : Option (List Nat) :=
  if ByteList b then some b else none

theorem c1Inflate_bytes : ∀ b l, c1Inflate b = some l → ByteList l := by
  intro b l h
  unfold c1Inflate at h
  split at h
  next hb =>
    cases h
    exact hb
  next => cases h

theorem c1Inflate_comp : ∀ b, ByteList b → c1Inflate (id b) = some b := by
  intro b hb
  show c1Inflate b = some b
  unfold c1Inflate
  rw [if_pos hb]

/-- A one-asset archive for the round-trip witness: a 160-byte record
whose asset has a 2-byte descriptor and one 4-byte resource chunk. -/
def c1Input : List Nat :=
  [1, 0, 0, 0, 0, 0, 0, 0,
   40, 0, 0, 0, 160, 0, 0, 0,
   200, 0, 0, 0, 16, 0, 0, 0,
   216, 0, 0, 0, 4, 0, 0, 0,
   220, 0, 0, 0, 2, 0, 0, 0]
  ++ ((65 :: List.replicate 127 0)
    ++ [7, 0, 0, 0] ++ [0, 0, 0, 0] ++ [0, 0, 0, 0] ++ [2, 0, 0, 0]
    ++ [0, 0, 0, 0] ++ [2, 0, 0, 0] ++ [0, 0, 0, 0] ++ [16, 0, 0, 0])
  ++ [16, 0, 0, 0, 1, 0, 0, 0, 0, 0, 0, 0, 4, 0, 0, 0]
  ++ [9, 9, 9, 9]
  ++ [1, 2]

/-- The decoded form of `c1Input`. -/
def c1Bnl : BNLFile :=
  ⟨parseHeader c1Input,
    [⟨⟨65 :: List.replicate 127 0, 7, 0, 0⟩, [1, 2], some [[9, 9, 9, 9]]⟩]⟩

set_option maxRecDepth 40000 in
theorem roundtrip_preserves_assets_witness :
    ∃ bnl2, BNLFile.from_bytes c1Inflate (BNLFile.to_bytes id c1Bnl)
        = .ok bnl2
      ∧ bnl2.assets = c1Bnl.assets :=
  roundtrip_preserves_assets c1Inflate id c1Input c1Bnl
    c1Inflate_bytes c1Inflate_comp (by decide) (by decide) (by decide)

/-! ## C1 counterexample: u32 truncation of the re-encoded
descriptor section -/

/-- A maximal u32-sized descriptor blob (2^32 - 1 zero bytes). -/
def ceB : List Nat := List.replicate (2 ^ 32 - 1) 0

def ceMeta : AssetMetadata := ⟨List.replicate 128 0, 0, 0, 0⟩

/-- Both records of the counterexample archive point at the same
descriptor slice: offset 0, size 2^32 - 1. -/
def ceRec : AssetDescription := ⟨ceMeta, 2, 0, 2 ^ 32 - 1, 0, 0⟩

/-- The record rebuilt by `to_bytes` for the second asset: its
descriptor slice starts where the first re-encoded copy ends. -/
def ceRec2 : AssetDescription :=
  ⟨ceMeta, 2, 2 ^ 32 - 1, 2 ^ 32 - 1, 0, 0⟩

def ceAsset : RawAsset := ⟨ceMeta, ceB, none⟩

def ceHdr : BNLHeader :=
  ⟨2, 0, [0, 0, 0, 0, 0], ⟨40, 320⟩, ⟨360, 0⟩, ⟨360, 0⟩,
    ⟨360, 2 ^ 32 - 1⟩⟩

/-- The counterexample input: two records sharing one maximal
descriptor slice. -/
def ceInput : List Nat :=
  ceHdr.to_bytes ++ (ceRec.to_bytes ++ (ceRec.to_bytes ++ ceB))

def ceBnl : BNLFile := ⟨parseHeader ceInput, [ceAsset, ceAsset]⟩

theorem ceB_length : ceB.length = 2 ^ 32 - 1 := List.length_replicate _ _

theorem ceHdr_to_bytes_length : ceHdr.to_bytes.length = 40 :=
  BNLHeader.to_bytes_len _ rfl

theorem ceRec_to_bytes_length :
    ceRec.to_bytes.length = ASSET_DESCRIPTION_SIZE :=
  AssetDescription.to_bytes_length _

theorem ceRec2_to_bytes_length :
    ceRec2.to_bytes.length = ASSET_DESCRIPTION_SIZE :=
  AssetDescription.to_bytes_length _

set_option maxRecDepth 10000 in
theorem ceRec_wf : ceRec.wf := by
  unfold AssetDescription.wf
  decide

theorem ce_decodeRecord : decodeRecord ceB [] [] ceRec = .ok ceAsset := by
  unfold decodeRecord
  have hc1 : ¬ (ceRec.descriptor_ptr + ceRec.descriptor_size
      > ceB.length) := by
    rw [ceB_length]
    show ¬ (0 + (2 ^ 32 - 1) > 2 ^ 32 - 1)
    omega
  rw [if_neg hc1]
  dsimp only
  have hc2 : ceRec.resource_size = 0 := rfl
  rw [if_pos hc2]
  rw [show ceRec.descriptor_ptr = 0 from rfl,
    show ceRec.descriptor_size = 2 ^ 32 - 1 from rfl,
    List.drop_zero, List.take_of_length_le (le_of_eq ceB_length)]
  rfl


theorem parseRecords_step_ok (combined descSec viewsSec bufSec : List Nat)
    (n p : Nat) (chunk : List Nat) (d : AssetDescription) (ra : RawAsset)
    (l : List RawAsset)
    (hb : bytesAt combined p ASSET_DESCRIPTION_SIZE = some chunk)
    (hd : AssetDescription.from_bytes chunk = .ok d)
    (hr : decodeRecord descSec viewsSec bufSec d = .ok ra)
    (hrest : parseRecords combined descSec viewsSec bufSec n
      (p + ASSET_DESCRIPTION_SIZE) = .ok l) :
    parseRecords combined descSec viewsSec bufSec (n + 1) p
      = .ok (ra :: l) := by
  rw [parseRecords, hb]
  dsimp only
  rw [hd]
  dsimp only
  rw [hr]
  dsimp only
  rw [hrest]

theorem parseRecords_step_panic
    (combined descSec viewsSec bufSec : List Nat)
    (n p : Nat) (chunk : List Nat) (d : AssetDescription)
    (hb : bytesAt combined p ASSET_DESCRIPTION_SIZE = some chunk)
    (hd : AssetDescription.from_bytes chunk = .ok d)
    (hr : decodeRecord descSec viewsSec bufSec d = .panicked) :
    parseRecords combined descSec viewsSec bufSec (n + 1) p
      = .panicked := by
  rw [parseRecords, hb]
  dsimp only
  rw [hd]
  dsimp only
  rw [hr]

theorem from_bytes_steps (inflate : List Nat → Option (List Nat))
    (input d S1 S2 S3 S4 : List Nat) (assets : List RawAsset)
    (hlen : ¬ input.length < 40)
    (hinf : inflate (input.drop 40) = some d)
    (r1 : readSection (input.take 40 ++ d)
      (parseHeader input).asset_desc_loc = .ok S1)
    (r2 : readSection (input.take 40 ++ d)
      (parseHeader input).buffer_views_loc = .ok S2)
    (r3 : readSection (input.take 40 ++ d)
      (parseHeader input).buffer_loc = .ok S3)
    (r4 : readSection (input.take 40 ++ d)
      (parseHeader input).descriptor_loc = .ok S4)
    (hp : parseRecords (input.take 40 ++ d) S4 S2 S3
      ((parseHeader input).asset_desc_loc.size / ASSET_DESCRIPTION_SIZE)
      (parseHeader input).asset_desc_loc.offset = .ok assets) :
    BNLFile.from_bytes inflate input = .ok ⟨parseHeader input, assets⟩ := by
  rw [from_bytes_eq, if_neg hlen, hinf]
  dsimp only
  rw [r1]
  dsimp only
  rw [r2]
  dsimp only
  rw [r3]
  dsimp only
  rw [r4]
  dsimp only
  rw [hp]

theorem from_bytes_steps_panic (inflate : List Nat → Option (List Nat))
    (input d S1 S2 S3 S4 : List Nat)
    (hlen : ¬ input.length < 40)
    (hinf : inflate (input.drop 40) = some d)
    (r1 : readSection (input.take 40 ++ d)
      (parseHeader input).asset_desc_loc = .ok S1)
    (r2 : readSection (input.take 40 ++ d)
      (parseHeader input).buffer_views_loc = .ok S2)
    (r3 : readSection (input.take 40 ++ d)
      (parseHeader input).buffer_loc = .ok S3)
    (r4 : readSection (input.take 40 ++ d)
      (parseHeader input).descriptor_loc = .ok S4)
    (hp : parseRecords (input.take 40 ++ d) S4 S2 S3
      ((parseHeader input).asset_desc_loc.size / ASSET_DESCRIPTION_SIZE)
      (parseHeader input).asset_desc_loc.offset = .panicked) :
    BNLFile.from_bytes inflate input = .panicked := by
  rw [from_bytes_eq, if_neg hlen, hinf]
  dsimp only
  rw [r1]
  dsimp only
  rw [r2]
  dsimp only
  rw [r3]
  dsimp only
  rw [r4]
  dsimp only
  rw [hp]

theorem ce_bytesAt_zero :
    bytesAt (ceHdr.to_bytes ++ (ceRec.to_bytes ++ (ceRec.to_bytes ++ ceB)))
      40 ASSET_DESCRIPTION_SIZE = some ceRec.to_bytes := by
  rw [show (40 : Nat) = ceHdr.to_bytes.length from ceHdr_to_bytes_length.symm]
  exact bytesAt_exact _ _ _ _ ceRec_to_bytes_length

theorem ce_bytesAt_one :
    bytesAt (ceHdr.to_bytes ++ (ceRec.to_bytes ++ (ceRec.to_bytes ++ ceB)))
      (40 + ASSET_DESCRIPTION_SIZE) ASSET_DESCRIPTION_SIZE
      = some ceRec.to_bytes := by
  rw [show ceHdr.to_bytes ++ (ceRec.to_bytes ++ (ceRec.to_bytes ++ ceB))
      = (ceHdr.to_bytes ++ ceRec.to_bytes) ++ (ceRec.to_bytes ++ ceB)
    from by simp [List.append_assoc]]
  rw [show 40 + ASSET_DESCRIPTION_SIZE
      = (ceHdr.to_bytes ++ ceRec.to_bytes).length
    from by rw [List.length_append, ceHdr_to_bytes_length,
      ceRec_to_bytes_length]]
  exact bytesAt_exact _ _ _ _ ceRec_to_bytes_length

theorem ce_parse_two :
    parseRecords (ceHdr.to_bytes
        ++ (ceRec.to_bytes ++ (ceRec.to_bytes ++ ceB)))
      ceB [] [] (320 / ASSET_DESCRIPTION_SIZE) 40
      = .ok [ceAsset, ceAsset] := by
  show parseRecords _ _ _ _ (1 + 1) _ = _
  refine parseRecords_step_ok _ _ _ _ _ _ _ _ _ _ ce_bytesAt_zero
    (AssetDescription.from_to _ ceRec_wf) ce_decodeRecord ?_
  show parseRecords _ _ _ _ (0 + 1) _ = _
  exact parseRecords_step_ok _ _ _ _ _ _ _ _ _ _ ce_bytesAt_one
    (AssetDescription.from_to _ ceRec_wf) ce_decodeRecord
    (by rw [parseRecords])

theorem ce_take_40 : ceInput.take 40 = ceHdr.to_bytes := by
  rw [show ceInput
      = ceHdr.to_bytes ++ (ceRec.to_bytes ++ (ceRec.to_bytes ++ ceB))
    from rfl, ← ceHdr_to_bytes_length, List.take_left]

theorem ce_drop_40 :
    ceInput.drop 40 = ceRec.to_bytes ++ (ceRec.to_bytes ++ ceB) := by
  rw [show ceInput
      = ceHdr.to_bytes ++ (ceRec.to_bytes ++ (ceRec.to_bytes ++ ceB))
    from rfl, ← ceHdr_to_bytes_length, List.drop_left]

theorem ce_loc1 : (parseHeader ceInput).asset_desc_loc = ⟨40, 320⟩ := by
  rw [show ceInput
      = ceHdr.to_bytes ++ (ceRec.to_bytes ++ (ceRec.to_bytes ++ ceB))
    from rfl,
    (parseHeader_locs ceHdr
      (ceRec.to_bytes ++ (ceRec.to_bytes ++ ceB)) rfl).1]
  decide

theorem ce_loc2 : (parseHeader ceInput).buffer_views_loc = ⟨360, 0⟩ := by
  rw [show ceInput
      = ceHdr.to_bytes ++ (ceRec.to_bytes ++ (ceRec.to_bytes ++ ceB))
    from rfl,
    (parseHeader_locs ceHdr
      (ceRec.to_bytes ++ (ceRec.to_bytes ++ ceB)) rfl).2.1]
  decide

theorem ce_loc3 : (parseHeader ceInput).buffer_loc = ⟨360, 0⟩ := by
  rw [show ceInput
      = ceHdr.to_bytes ++ (ceRec.to_bytes ++ (ceRec.to_bytes ++ ceB))
    from rfl,
    (parseHeader_locs ceHdr
      (ceRec.to_bytes ++ (ceRec.to_bytes ++ ceB)) rfl).2.2.1]
  decide

theorem ce_loc4 :
    (parseHeader ceInput).descriptor_loc = ⟨360, 2 ^ 32 - 1⟩ := by
  rw [show ceInput
      = ceHdr.to_bytes ++ (ceRec.to_bytes ++ (ceRec.to_bytes ++ ceB))
    from rfl,
    (parseHeader_locs ceHdr
      (ceRec.to_bytes ++ (ceRec.to_bytes ++ ceB)) rfl).2.2.2]
  decide

theorem ce_decode_ok :
    BNLFile.from_bytes (fun b => some b) ceInput = .ok ceBnl := by
  refine from_bytes_steps (fun b => some b) ceInput
    (ceRec.to_bytes ++ (ceRec.to_bytes ++ ceB))
    (ceRec.to_bytes ++ ceRec.to_bytes) [] [] ceB [ceAsset, ceAsset]
    ?_ ?_ ?_ ?_ ?_ ?_ ?_
  · rw [show ceInput
        = ceHdr.to_bytes ++ (ceRec.to_bytes ++ (ceRec.to_bytes ++ ceB))
      from rfl, List.length_append, ceHdr_to_bytes_length]
    omega
  · show some (ceInput.drop 40) = _
    rw [ce_drop_40]
  · rw [ce_take_40, ce_loc1,
      show ceHdr.to_bytes ++ (ceRec.to_bytes ++ (ceRec.to_bytes ++ ceB))
        = ceHdr.to_bytes ++ ((ceRec.to_bytes ++ ceRec.to_bytes) ++ ceB)
      from by simp [List.append_assoc]]
    exact readSection_exact _ _ _ _ ceHdr_to_bytes_length.symm
      (by rw [List.length_append, ceRec_to_bytes_length]; decide)
  · rw [ce_loc2]
    unfold readSection
    rw [if_pos (show (⟨360, 0⟩ : DataView).size = 0 from rfl)]
  · rw [ce_loc3]
    unfold readSection
    rw [if_pos (show (⟨360, 0⟩ : DataView).size = 0 from rfl)]
  · rw [ce_take_40, ce_loc4,
      show ceHdr.to_bytes ++ (ceRec.to_bytes ++ (ceRec.to_bytes ++ ceB))
        = (ceHdr.to_bytes ++ (ceRec.to_bytes ++ ceRec.to_bytes))
          ++ (ceB ++ [])
      from by simp [List.append_assoc]]
    exact readSection_exact _ _ _ _
      (by rw [List.length_append, List.length_append,
        ceHdr_to_bytes_length, ceRec_to_bytes_length]; decide)
      ceB_length.symm
  · rw [ce_take_40, ce_loc1]
    exact ce_parse_two

theorem recordOf_none (m : AssetMetadata) (db : List Nat)
    (vLen dLen : Nat) :
    recordOf ⟨m, db, none⟩ vLen dLen
      = ⟨m, 2, dLen % 2 ^ 32, db.length % 2 ^ 32, 0, 0⟩ := rfl

theorem ce_recordOf_first : recordOf ceAsset 0 0 = ceRec := by
  rw [show ceAsset = ⟨ceMeta, ceB, none⟩ from rfl, recordOf_none,
    ceB_length, Nat.zero_mod,
    Nat.mod_eq_of_lt (show 2 ^ 32 - 1 < 2 ^ 32 by norm_num)]
  rfl

theorem ce_recordOf_second : recordOf ceAsset 0 ceB.length = ceRec2 := by
  rw [show ceAsset = ⟨ceMeta, ceB, none⟩ from rfl, recordOf_none,
    ceB_length,
    Nat.mod_eq_of_lt (show 2 ^ 32 - 1 < 2 ^ 32 by norm_num)]
  rfl

theorem ce_buildRest : buildRest [ceAsset, ceAsset] 0 0 0
    = ⟨ceRec.to_bytes ++ ceRec2.to_bytes, [], [], ceB ++ ceB⟩ := by
  simp only [buildRest,
    show dvlBytesOf ceAsset 0 = [] from rfl,
    show bufBytesOf ceAsset = [] from rfl,
    show ceAsset.descriptor_bytes = ceB from rfl,
    List.length_nil, Nat.add_zero, Nat.zero_add, List.append_nil,
    ce_recordOf_first, ce_recordOf_second]

theorem ce_encSections : encSections ceBnl
    = ⟨ceRec.to_bytes ++ ceRec2.to_bytes, [], [], ceB ++ ceB⟩ := by
  rw [encSections_eq, show ceBnl.assets = [ceAsset, ceAsset] from rfl,
    ce_buildRest]

theorem ce_unknown2_len : (encHeader ceBnl).unknown_2.length = 5 := by
  show ((ceInput.drop 3).take 5).length = 5
  rw [List.length_take, List.length_drop]
  have h40 : 40 ≤ ceInput.length := by
    rw [show ceInput
        = ceHdr.to_bytes ++ (ceRec.to_bytes ++ (ceRec.to_bytes ++ ceB))
      from rfl, List.length_append, ceHdr_to_bytes_length]
    omega
  omega

theorem ce_encHeader_len : (encHeader ceBnl).to_bytes.length = 40 :=
  BNLHeader.to_bytes_len _ ce_unknown2_len

theorem ce_to_bytes : BNLFile.to_bytes id ceBnl
    = (encHeader ceBnl).to_bytes
      ++ ((ceRec.to_bytes ++ ceRec2.to_bytes) ++ (ceB ++ ceB)) := by
  rw [BNLFile.to_bytes_enc,
    show (encSections ceBnl).descSec = ceRec.to_bytes ++ ceRec2.to_bytes
      from by rw [ce_encSections],
    show (encSections ceBnl).viewsSec = [] from by rw [ce_encSections],
    show (encSections ceBnl).bufSec = [] from by rw [ce_encSections],
    show (encSections ceBnl).descrSec = ceB ++ ceB
      from by rw [ce_encSections],
    id_eq, List.append_nil, List.append_nil]

theorem ce_out_loc1 : (parseHeader ((encHeader ceBnl).to_bytes
      ++ ((ceRec.to_bytes ++ ceRec2.to_bytes)
        ++ (ceB ++ ceB)))).asset_desc_loc = ⟨40, 320⟩ := by
  rw [(parseHeader_locs (encHeader ceBnl)
      ((ceRec.to_bytes ++ ceRec2.to_bytes) ++ (ceB ++ ceB))
      ce_unknown2_len).1,
    show (encHeader ceBnl).asset_desc_loc
      = ⟨40 % 2 ^ 32, (encSections ceBnl).descSec.length % 2 ^ 32⟩
    from rfl,
    show (encSections ceBnl).descSec = ceRec.to_bytes ++ ceRec2.to_bytes
      from by rw [ce_encSections],
    List.length_append, ceRec_to_bytes_length, ceRec2_to_bytes_length]
  decide

theorem ce_out_loc2 : (parseHeader ((encHeader ceBnl).to_bytes
      ++ ((ceRec.to_bytes ++ ceRec2.to_bytes)
        ++ (ceB ++ ceB)))).buffer_views_loc = ⟨360, 0⟩ := by
  rw [(parseHeader_locs (encHeader ceBnl)
      ((ceRec.to_bytes ++ ceRec2.to_bytes) ++ (ceB ++ ceB))
      ce_unknown2_len).2.1,
    show (encHeader ceBnl).buffer_views_loc
      = ⟨(40 + (encSections ceBnl).descSec.length) % 2 ^ 32,
          (encSections ceBnl).viewsSec.length % 2 ^ 32⟩
    from rfl,
    show (encSections ceBnl).descSec = ceRec.to_bytes ++ ceRec2.to_bytes
      from by rw [ce_encSections],
    show (encSections ceBnl).viewsSec = [] from by rw [ce_encSections],
    List.length_append, ceRec_to_bytes_length, ceRec2_to_bytes_length]
  decide

theorem ce_out_loc3 : (parseHeader ((encHeader ceBnl).to_bytes
      ++ ((ceRec.to_bytes ++ ceRec2.to_bytes)
        ++ (ceB ++ ceB)))).buffer_loc = ⟨360, 0⟩ := by
  rw [(parseHeader_locs (encHeader ceBnl)
      ((ceRec.to_bytes ++ ceRec2.to_bytes) ++ (ceB ++ ceB))
      ce_unknown2_len).2.2.1,
    show (encHeader ceBnl).buffer_loc
      = ⟨(40 + (encSections ceBnl).descSec.length
            + (encSections ceBnl).viewsSec.length) % 2 ^ 32,
          (encSections ceBnl).bufSec.length % 2 ^ 32⟩
    from rfl,
    show (encSections ceBnl).descSec = ceRec.to_bytes ++ ceRec2.to_bytes
      from by rw [ce_encSections],
    show (encSections ceBnl).viewsSec = [] from by rw [ce_encSections],
    show (encSections ceBnl).bufSec = [] from by rw [ce_encSections],
    List.length_append, ceRec_to_bytes_length, ceRec2_to_bytes_length]
  decide

theorem ce_out_loc4 : (parseHeader ((encHeader ceBnl).to_bytes
      ++ ((ceRec.to_bytes ++ ceRec2.to_bytes)
        ++ (ceB ++ ceB)))).descriptor_loc = ⟨360, 2 ^ 32 - 2⟩ := by
  rw [(parseHeader_locs (encHeader ceBnl)
      ((ceRec.to_bytes ++ ceRec2.to_bytes) ++ (ceB ++ ceB))
      ce_unknown2_len).2.2.2,
    show (encHeader ceBnl).descriptor_loc
      = ⟨(40 + (encSections ceBnl).descSec.length
            + (encSections ceBnl).viewsSec.length
            + (encSections ceBnl).bufSec.length) % 2 ^ 32,
          (encSections ceBnl).descrSec.length % 2 ^ 32⟩
    from rfl,
    show (encSections ceBnl).descSec = ceRec.to_bytes ++ ceRec2.to_bytes
      from by rw [ce_encSections],
    show (encSections ceBnl).viewsSec = [] from by rw [ce_encSections],
    show (encSections ceBnl).bufSec = [] from by rw [ce_encSections],
    show (encSections ceBnl).descrSec = ceB ++ ceB
      from by rw [ce_encSections],
    List.length_append, ceRec_to_bytes_length, ceRec2_to_bytes_length,
    List.length_append, ceB_length]
  decide

theorem ce_out_take :
    ((encHeader ceBnl).to_bytes
      ++ ((ceRec.to_bytes ++ ceRec2.to_bytes) ++ (ceB ++ ceB))).take 40
      = (encHeader ceBnl).to_bytes := by
  rw [← ce_encHeader_len, List.take_left]

theorem ce_out_drop :
    ((encHeader ceBnl).to_bytes
      ++ ((ceRec.to_bytes ++ ceRec2.to_bytes) ++ (ceB ++ ceB))).drop 40
      = (ceRec.to_bytes ++ ceRec2.to_bytes) ++ (ceB ++ ceB) := by
  rw [← ce_encHeader_len, List.drop_left]

theorem ce_out_read1 : readSection ((encHeader ceBnl).to_bytes
      ++ ((ceRec.to_bytes ++ ceRec2.to_bytes) ++ (ceB ++ ceB)))
    ⟨40, 320⟩ = .ok (ceRec.to_bytes ++ ceRec2.to_bytes) :=
  readSection_exact _ _ _ _ ce_encHeader_len.symm
    (by rw [List.length_append, ceRec_to_bytes_length,
      ceRec2_to_bytes_length]; decide)

theorem ce_out_read4 : readSection ((encHeader ceBnl).to_bytes
      ++ ((ceRec.to_bytes ++ ceRec2.to_bytes) ++ (ceB ++ ceB)))
    ⟨360, 2 ^ 32 - 2⟩ = .ok (List.replicate (2 ^ 32 - 2) 0) := by
  unfold readSection
  rw [if_neg (show ¬ ((⟨360, 2 ^ 32 - 2⟩ : DataView).size = 0)
    from by decide)]
  have hle : (⟨360, 2 ^ 32 - 2⟩ : DataView).offset
      + (⟨360, 2 ^ 32 - 2⟩ : DataView).size
      ≤ ((encHeader ceBnl).to_bytes
        ++ ((ceRec.to_bytes ++ ceRec2.to_bytes) ++ (ceB ++ ceB))).length := by
    show 360 + (2 ^ 32 - 2) ≤ _
    simp only [List.length_append, ce_encHeader_len,
      ceRec_to_bytes_length, ceRec2_to_bytes_length, ceB_length]
    rw [show ASSET_DESCRIPTION_SIZE = 160 from rfl]
    omega
  rw [if_pos hle]
  have hd : ((encHeader ceBnl).to_bytes
      ++ ((ceRec.to_bytes ++ ceRec2.to_bytes) ++ (ceB ++ ceB))).drop
        (⟨360, 2 ^ 32 - 2⟩ : DataView).offset = ceB ++ ceB := by
    show ((encHeader ceBnl).to_bytes
      ++ ((ceRec.to_bytes ++ ceRec2.to_bytes) ++ (ceB ++ ceB))).drop 360
      = ceB ++ ceB
    rw [show (encHeader ceBnl).to_bytes
        ++ ((ceRec.to_bytes ++ ceRec2.to_bytes) ++ (ceB ++ ceB))
        = ((encHeader ceBnl).to_bytes
            ++ (ceRec.to_bytes ++ ceRec2.to_bytes)) ++ (ceB ++ ceB)
      from by simp [List.append_assoc]]
    rw [show (360 : Nat) = ((encHeader ceBnl).to_bytes
        ++ (ceRec.to_bytes ++ ceRec2.to_bytes)).length
      from by simp only [List.length_append, ce_encHeader_len,
        ceRec_to_bytes_length, ceRec2_to_bytes_length]; decide,
      List.drop_left]
  rw [hd]
  rw [show ceB ++ ceB
      = List.replicate ((2 ^ 32 - 1) + (2 ^ 32 - 1)) 0
    from by rw [List.replicate_add]; rfl]
  rw [List.take_replicate,
    show min (2 ^ 32 - 2) ((2 ^ 32 - 1) + (2 ^ 32 - 1)) = 2 ^ 32 - 2
    from by omega]

theorem ce_decodeRecord_panic :
    decodeRecord (List.replicate (2 ^ 32 - 2) 0) [] [] ceRec
      = .panicked := by
  unfold decodeRecord
  rw [if_pos (show ceRec.descriptor_ptr + ceRec.descriptor_size
      > (List.replicate (2 ^ 32 - 2) 0 : List Nat).length from by
    rw [List.length_replicate]
    show 0 + (2 ^ 32 - 1) > 2 ^ 32 - 2
    omega)]

theorem ce_out_bytesAt_zero :
    bytesAt ((encHeader ceBnl).to_bytes
        ++ ((ceRec.to_bytes ++ ceRec2.to_bytes) ++ (ceB ++ ceB)))
      40 ASSET_DESCRIPTION_SIZE = some ceRec.to_bytes := by
  rw [show (encHeader ceBnl).to_bytes
      ++ ((ceRec.to_bytes ++ ceRec2.to_bytes) ++ (ceB ++ ceB))
      = (encHeader ceBnl).to_bytes
        ++ (ceRec.to_bytes ++ (ceRec2.to_bytes ++ (ceB ++ ceB)))
    from by simp [List.append_assoc]]
  rw [show (40 : Nat) = (encHeader ceBnl).to_bytes.length
    from ce_encHeader_len.symm]
  exact bytesAt_exact _ _ _ _ ceRec_to_bytes_length

theorem ce_parse_panic :
    parseRecords ((encHeader ceBnl).to_bytes
        ++ ((ceRec.to_bytes ++ ceRec2.to_bytes) ++ (ceB ++ ceB)))
      (List.replicate (2 ^ 32 - 2) 0) [] []
      (320 / ASSET_DESCRIPTION_SIZE) 40 = .panicked := by
  show parseRecords _ _ _ _ (1 + 1) _ = _
  exact parseRecords_step_panic _ _ _ _ _ _ _ _ ce_out_bytesAt_zero
    (AssetDescription.from_to _ ceRec_wf) ce_decodeRecord_panic

theorem ce_redecode_panics :
    BNLFile.from_bytes (fun b => some b) (BNLFile.to_bytes id ceBnl)
      = .panicked := by
  rw [ce_to_bytes]
  refine from_bytes_steps_panic (fun b => some b) _
    ((ceRec.to_bytes ++ ceRec2.to_bytes) ++ (ceB ++ ceB))
    (ceRec.to_bytes ++ ceRec2.to_bytes) [] []
    (List.replicate (2 ^ 32 - 2) 0) ?_ ?_ ?_ ?_ ?_ ?_ ?_
  · rw [List.length_append, ce_encHeader_len]
    omega
  · show some (((encHeader ceBnl).to_bytes
      ++ ((ceRec.to_bytes ++ ceRec2.to_bytes) ++ (ceB ++ ceB))).drop 40) = _
    rw [ce_out_drop]
  · rw [ce_out_take, ce_out_loc1]
    exact ce_out_read1
  · rw [ce_out_loc2]
    unfold readSection
    rw [if_pos (show (⟨360, 0⟩ : DataView).size = 0 from rfl)]
  · rw [ce_out_loc3]
    unfold readSection
    rw [if_pos (show (⟨360, 0⟩ : DataView).size = 0 from rfl)]
  · rw [ce_out_take, ce_out_loc4]
    exact ce_out_read4
  · rw [ce_out_take, ce_out_loc1]
    exact ce_parse_panic

/-- C1 (counterexample to the unconditional claim): an archive in which
two records share one maximal (2^32 - 1 byte) descriptor slice decodes
successfully, but re-encoding duplicates the shared slice so the
rebuilt descriptor section holds 2^33 - 2 bytes; its header size field
is truncated `as u32` to 2^32 - 2, and decoding the re-encoded output
panics on the first record's out-of-range descriptor slice instead of
succeeding — even with an identity compression pair. -/
theorem roundtrip_unconditional_cx :
    BNLFile.from_bytes (fun b => some b) ceInput = .ok ceBnl ∧
    BNLFile.from_bytes (fun b => some b) (BNLFile.to_bytes id ceBnl)
      = .panicked :=
  ⟨ce_decode_ok, ce_redecode_panics⟩
